import Mathlib

/-!
# Verification of the Landsat filename decoding and metadata organization core

This file gives a shallow embedding, in Lean 4, of the filename decoding and
metadata organization subsystem of the `pale-blue-dot-challenge` repository:

* `decode_satellite_filename` (from `src/utils.py`),
* `organize_satellite_data_json`, `organize_satellite_data_txt` and
  `create_satellite_images_paths` (from `src/landsat_data_processor.py`),

together with proofs of the behavioural properties stated for them.

Modelling conventions:

* Python strings are modelled as Lean `String` (a wrapper around `List Char`);
  Python string slicing `s[a:b]` is modelled as `(s.data.drop a).take b - a`
  packed back into a `String`, and Python string comparison (used by `sorted`)
  is modelled by the code-point lexicographic order `strLeR` defined below.
* The regular-expression character class `\d` is modelled as the ASCII digits
  `0`–`9`.  (Python's `\d` additionally accepts non-ASCII Unicode decimal
  digits; no filename handled by this system uses them, and none of the
  properties below depends on that corner.)
* Python's `$` anchor matches at the very end of the string *or just before a
  single trailing newline*; the decoder below reproduces this faithfully.
* Python `dict`s are insertion-ordered and are modelled as association lists
  in insertion order.  Python `set`s have an implementation-defined iteration
  order that depends on the insertion history; they are modelled as
  duplicate-free lists in first-insertion order.  Every property proved about
  data that is *sorted* before being read back is independent of this choice;
  for data read back unsorted the model exposes (one instance of) the real
  order-dependence of the Python code.
* Python `sorted` is a stable ascending sort and is modelled by
  `List.insertionSort`, which is stable for the total preorders used here.
-/

/-! ## Character classes and code-point lexicographic order -/

/-- The regex class `\d`, modelled as the ASCII digits `0`–`9`. -/
def isDigitC (c : Char) : Bool := 48 ≤ c.toNat && c.toNat ≤ 57

/-- The regex class `[A-Z]` (ASCII uppercase letters). -/
def isUpperC (c : Char) : Bool := 65 ≤ c.toNat && c.toNat ≤ 90

/-- The regex class `[A-Z0-9_]` used for the `band` capture group. -/
def isBandChar (c : Char) : Bool := isUpperC c || isDigitC c || c == '_'

/-- Code-point lexicographic order on character lists, exactly Python's
string comparison: compare the first characters; on equality continue; a
proper prefix is smaller. -/
def lexLe : List Char → List Char → Bool
  | [], _ => true
  | _ :: _, [] => false
  | a :: as, b :: bs => a.toNat < b.toNat || (a == b && lexLe as bs)

/-- Python's `<=` on strings (code-point lexicographic order). -/
def strLe (a b : String) : Bool := lexLe a.data b.data

/-- `strLe` as a relation, used as the comparison of Python's `sorted`. -/
def strLeR (a b : String) : Prop := strLe a b = true

instance : DecidableRel strLeR := fun a b => by
  unfold strLeR; infer_instance

/-- Comparison of association-list entries by their string key, modelling
`sorted(d.items())` on a Python dict with string keys. -/
def fstLeR {α : Type} (a b : String × α) : Prop := strLeR a.1 b.1

instance {α : Type} : DecidableRel (fstLeR (α := α)) := fun a b => by
  unfold fstLeR; infer_instance

/-! ## The decoded record

`decode_satellite_filename` returns `match.groupdict()`, a mapping with the
nine named capture groups of the pattern; we model it as a record with one
`String` field per capture group (the spec calls this record
`FilenameComponents`). -/

structure FilenameComponents where
  satellite : String
  correction_level : String
  wrs : String
  acquisition_date : String
  processing_date : String
  collection_number : String
  collection_category : String
  surface : String
  band : String
deriving DecidableEq, Repr

/-! ## Field checks (one per capture group of the source pattern) -/

/-- `(?P<satellite>L[COTEM][0-9]{2})` on exactly 4 characters. -/
def satCheck : List Char → Bool
  | [a, b, c, d] =>
    a == 'L' && (b == 'C' || b == 'O' || b == 'T' || b == 'E' || b == 'M') &&
      isDigitC c && isDigitC d
  | _ => false

/-- `(?P<correction_level>L2SP|L2SR)` on exactly 4 characters. -/
def corrCheck (s : List Char) : Bool :=
  decide (s = "L2SP".data) || decide (s = "L2SR".data)

/-- `(?P<wrs>\d{6})`: the length is enforced by the field splitter. -/
def wrsCheck (s : List Char) : Bool := s.all isDigitC

/-- The month alternative `(?:0[1-9]|1[0-2])` of `DATE_REGEX`. -/
def monthCheck (m1 m2 : Char) : Bool :=
  (m1 == '0' && isDigitC m2 && m2 != '0') ||
    (m1 == '1' && (m2 == '0' || m2 == '1' || m2 == '2'))

/-- The day alternative `(?:0[1-9]|[12][0-9]|3[01])` of `DATE_REGEX`. -/
def dayCheck (d1 d2 : Char) : Bool :=
  (d1 == '0' && isDigitC d2 && d2 != '0') ||
    ((d1 == '1' || d1 == '2') && isDigitC d2) ||
    (d1 == '3' && (d2 == '0' || d2 == '1'))

/-- `DATE_REGEX = (?:19|20)\d{2}(?:0[1-9]|1[0-2])(?:0[1-9]|[12][0-9]|3[01])`
on exactly 8 characters. -/
def dateCheck : List Char → Bool
  | [y1, y2, y3, y4, m1, m2, d1, d2] =>
    ((y1 == '1' && y2 == '9') || (y1 == '2' && y2 == '0')) &&
      isDigitC y3 && isDigitC y4 && monthCheck m1 m2 && dayCheck d1 d2
  | _ => false

/-- `(?P<collection_number>[0-9]{2})`: length enforced by the splitter. -/
def cnCheck (s : List Char) : Bool := s.all isDigitC

/-- `(?P<collection_category>RT|T1|T2)` on exactly 2 characters. -/
def catCheck (s : List Char) : Bool :=
  decide (s = "RT".data) || decide (s = "T1".data) || decide (s = "T2".data)

/-- `(?P<surface>ST|SR)` on exactly 2 characters. -/
def surfCheck (s : List Char) : Bool :=
  decide (s = "ST".data) || decide (s = "SR".data)

/-! ## The decoder -/

/-- Split off exactly `n` characters. -/
def takeN (n : Nat) (l : List Char) : Option (List Char × List Char) :=
  if n ≤ l.length then some (l.take n, l.drop n) else none

/-- Match one fixed-width capture group followed by its literal `_`
separator: split off `n` characters, validate them with `check`, then
require and consume an underscore. -/
def fieldU (n : Nat) (check : List Char → Bool) (l : List Char) :
    Option (List Char × List Char) :=
  match takeN n l with
  | none => none
  | some (a, r) =>
    if check a then
      match r with
      | [] => none
      | c :: r' => if c = '_' then some (a, r') else none
    else none

/-- The characters of the literal `.TIF` tail of the pattern. -/
def tifTail : List Char := ['.', 'T', 'I', 'F']

/-- The same tail followed by one newline: Python's `$` also matches just
before a single newline at the very end of the string, so `re.match`
accepts a filename with one trailing `'\n'` after `.TIF`. -/
def tifTailNl : List Char := ['.', 'T', 'I', 'F', '\n']

/-- Core of `decode_satellite_filename`, on the character list of the
filename.  The pattern's capture groups up to `band` all have fixed width
and are separated by literal underscores, so the regex engine's behaviour
is this deterministic left-to-right split; `band` (`[A-Z0-9_]+`) is the
maximal run of band characters, since `.` is not a band character no
shorter run can be completed to a match. -/
def decodeCore (l : List Char) : Option FilenameComponents :=
  match fieldU 4 satCheck l with
  | none => none
  | some (sat, l1) =>
  match fieldU 4 corrCheck l1 with
  | none => none
  | some (corr, l2) =>
  match fieldU 6 wrsCheck l2 with
  | none => none
  | some (wrs, l3) =>
  match fieldU 8 dateCheck l3 with
  | none => none
  | some (acq, l4) =>
  match fieldU 8 dateCheck l4 with
  | none => none
  | some (proc, l5) =>
  match fieldU 2 cnCheck l5 with
  | none => none
  | some (cn, l6) =>
  match fieldU 2 catCheck l6 with
  | none => none
  | some (cat, l7) =>
  match fieldU 2 surfCheck l7 with
  | none => none
  | some (sf, l8) =>
    let band := l8.takeWhile isBandChar
    let rest := l8.dropWhile isBandChar
    if band = [] then none
    else if rest = tifTail ∨ rest = tifTailNl then
      some ⟨⟨sat⟩, ⟨corr⟩, ⟨wrs⟩, ⟨acq⟩, ⟨proc⟩, ⟨cn⟩, ⟨cat⟩, ⟨sf⟩, ⟨band⟩⟩
    else none

/-- `decode_satellite_filename` from `src/utils.py`: `re.match` the verbose
pattern against the filename and return the group dictionary, or `None`
when there is no match. -/
def decode_satellite_filename (filename : String) : Option FilenameComponents :=
  decodeCore filename.data

/-! ## Rendering a record back into a filename

`create_satellite_images_paths` rebuilds filenames by joining the fields in
grammar order; the same shape (with the `{surface}_{band}` token split into
its two halves) is the unique exact-match form of the input grammar, which
we use to state grammar soundness. -/

/-- The canonical filename of a decoded record: all nine fields joined in
grammar order with `_`, followed by `.TIF`. -/
def renderFilename (d : FilenameComponents) : String :=
  d.satellite ++ "_" ++ d.correction_level ++ "_" ++ d.wrs ++ "_" ++
    d.acquisition_date ++ "_" ++ d.processing_date ++ "_" ++
    d.collection_number ++ "_" ++ d.collection_category ++ "_" ++
    d.surface ++ "_" ++ d.band ++ ".TIF"

/-- Well-formedness of a record: each field satisfies the check and has the
width demanded by its capture group.  `decode_satellite_filename` succeeds
exactly on renderings of well-formed records (up to one trailing newline). -/
def wellFormed (d : FilenameComponents) : Bool :=
  satCheck d.satellite.data &&
  corrCheck d.correction_level.data &&
  (d.wrs.data.length == 6 && wrsCheck d.wrs.data) &&
  dateCheck d.acquisition_date.data &&
  dateCheck d.processing_date.data &&
  (d.collection_number.data.length == 2 && cnCheck d.collection_number.data) &&
  catCheck d.collection_category.data &&
  surfCheck d.surface.data &&
  (!d.band.data.isEmpty && d.band.data.all isBandChar)

/-- A string is an exact match of the filename grammar (anchored at both
ends, no trailing newline) iff it is the rendering of a well-formed record. -/
def grammarMatch (s : String) : Prop :=
  ∃ d : FilenameComponents, wellFormed d = true ∧ s = renderFilename d

/-! ## `organize_satellite_data_json`

The accumulator of the first loop: per year, four Python sets (modelled as
first-insertion-ordered duplicate-free lists) and the `values` dict mapping
the tuple `(satellite, wrs, acquisition_date, processing_date)` to a set of
`{surface}_{band}` tokens (an insertion-ordered association list whose
entries hold such set-lists). -/

/-- The grouping key `(satellite, wrs, acquisition_date, processing_date)`. -/
abbrev GroupKey := String × String × String × String

structure YearData where
  satellites : List String
  correction_level : List String
  collection_number : List String
  collection_category : List String
  values : List (GroupKey × List String)
deriving DecidableEq, Repr

/-- The `defaultdict` default: four empty sets and an empty dict. -/
def emptyYearData : YearData := ⟨[], [], [], [], []⟩

/-- Python `set.add`: a no-op when the element is present, otherwise the
element is inserted (we record it at the end, first-insertion order). -/
def setAdd (s : List String) (x : String) : List String :=
  if x ∈ s then s else s ++ [x]

/-- `values.setdefault(key, set()).add(b)` on the insertion-ordered dict. -/
def valuesAdd : List (GroupKey × List String) → GroupKey → String →
    List (GroupKey × List String)
  | [], k, b => [(k, [b])]
  | (k', bs) :: rest, k, b =>
    if k' = k then (k', setAdd bs b) :: rest else (k', bs) :: valuesAdd rest k b

/-- `details["acquisition_date"][:4]`. -/
def yearOf (d : FilenameComponents) : String := ⟨d.acquisition_date.data.take 4⟩

/-- `s[4:6]` for an acquisition date string. -/
def monthOfDate (s : String) : String := ⟨(s.data.drop 4).take 2⟩

/-- The grouping key of a decoded record. -/
def keyOf (d : FilenameComponents) : GroupKey :=
  (d.satellite, d.wrs, d.acquisition_date, d.processing_date)

/-- `f'{details["surface"]}_{details["band"]}'`. -/
def bandTokenOf (d : FilenameComponents) : String := d.surface ++ "_" ++ d.band

/-- The body of the first loop for one decoded record: add the four scalar
fields to the year's sets and the band token to the group's set. -/
def addDetails (yd : YearData) (d : FilenameComponents) : YearData :=
  { satellites := setAdd yd.satellites d.satellite
    correction_level := setAdd yd.correction_level d.correction_level
    collection_number := setAdd yd.collection_number d.collection_number
    collection_category := setAdd yd.collection_category d.collection_category
    values := valuesAdd yd.values (keyOf d) (bandTokenOf d) }

/-- `structured_data[year]` on the `defaultdict`: update the year's entry in
place, or append a fresh default entry (Python dicts are insertion-ordered). -/
def updateYear : List (String × YearData) → String → FilenameComponents →
    List (String × YearData)
  | [], y, d => [(y, addDetails emptyYearData d)]
  | (y', yd) :: rest, y, d =>
    if y' = y then (y', addDetails yd d) :: rest
    else (y', yd) :: updateYear rest y d

/-- One iteration of the first loop of `organize_satellite_data_json`: decode
the filename; on failure report and skip (the state is unchanged), otherwise
fold the record into the accumulator. -/
def jsonFold (sd : List (String × YearData)) (filename : String) :
    List (String × YearData) :=
  match decode_satellite_filename filename with
  | none => sd
  | some d => updateYear sd (yearOf d) d

/-- One entry of the output `values` list. -/
structure GroupValue where
  satellite : String
  wrs : String
  acquisition_date : String
  processing_date : String
  bands : List String
deriving DecidableEq, Repr

/-- One year of the final output structure. -/
structure YearOutput where
  satellites : List String
  correction_level : List String
  collection_number : List String
  collection_category : List String
  values : List GroupValue
  missing_months : List String
deriving DecidableEq, Repr

/-- The comparison of `sorted(....items(), key=lambda x: x[0][2])`: order
dict entries by the acquisition date (third component) of their key. -/
def valueLeR (a b : GroupKey × List String) : Prop := strLeR a.1.2.2.1 b.1.2.2.1

instance : DecidableRel valueLeR := fun a b => by
  unfold valueLeR; infer_instance

/-- The set `{f"{index:02d}" for index in range(1, 13)}`, in its insertion
order (which is already ascending). -/
def allMonths : List String :=
  ["01", "02", "03", "04", "05", "06", "07", "08", "09", "10", "11", "12"]

/-- One `values` dict entry turned into an output record, its band set
sorted lexicographically. -/
def mkGroup (kv : GroupKey × List String) : GroupValue :=
  { satellite := kv.1.1
    wrs := kv.1.2.1
    acquisition_date := kv.1.2.2.1
    processing_date := kv.1.2.2.2
    bands := List.insertionSort strLeR kv.2 }

/-- The per-year second phase: sort the groups by acquisition date (Python's
`sorted` is stable; so is `insertionSort`), turn each group into an output
record with its band set sorted, and compute the sorted missing months as
the set `{"01",...,"12"}` minus the months present among the group values. -/
def finalizeYear (yd : YearData) : YearOutput :=
  let values := (List.insertionSort valueLeR yd.values).map mkGroup
  { satellites := yd.satellites
    correction_level := yd.correction_level
    collection_number := yd.collection_number
    collection_category := yd.collection_category
    values := values
    missing_months := List.insertionSort strLeR
      (allMonths.filter fun m =>
        !values.any fun v => monthOfDate v.acquisition_date == m) }

/-- `organize_satellite_data_json` from `src/landsat_data_processor.py`:
fold every filename into the per-year accumulator, then emit the years in
ascending order (`for year in sorted(structured_data.keys())`), finalizing
each year's entry.  The four set fields are emitted as lists without any
sorting (`list(...)` on a set). -/
def organize_satellite_data_json (image_filenames : List String) :
    List (String × YearOutput) :=
  let sd := image_filenames.foldl jsonFold []
  (List.insertionSort fstLeR sd).map fun p => (p.1, finalizeYear p.2)

/-! ## `organize_satellite_data_txt` -/

/-- Generic insertion-ordered dict update: `d.setdefault(k, dflt)` followed
by an in-place modification `f` of the entry (Python `defaultdict` access). -/
def assocUpdate {β : Type} (dflt : β) (f : β → β) :
    List (String × β) → String → List (String × β)
  | [], k => [(k, f dflt)]
  | (k', v) :: rest, k =>
    if k' = k then (k', f v) :: rest
    else (k', v) :: assocUpdate dflt f rest k

/-- The nested accumulator of the text report:
year → month → band → list of raw filenames (in append order). -/
abbrev TxtData := List (String × List (String × List (String × List String)))

/-- One iteration of the first loop of `organize_satellite_data_txt`: decode
the filename; on failure report and skip, otherwise append the raw filename
under `[year][month][band]` of the nested `defaultdict`. -/
def txtFold (sd : TxtData) (filename : String) : TxtData :=
  match decode_satellite_filename filename with
  | none => sd
  | some d =>
    assocUpdate [] (fun months =>
        assocUpdate [] (fun bands =>
            assocUpdate [] (fun fs => fs ++ [filename]) bands d.band)
          months (monthOfDate d.acquisition_date))
      sd (yearOf d)

/-- Dict lookup with a default (the entry is present at every use site). -/
def lookupD {β : Type} (l : List (String × β)) (k : String) (dflt : β) : β :=
  match l.find? (fun p => p.1 == k) with
  | some p => p.2
  | none => dflt

/-- The fixed header of the text report. -/
def reportHeader : String :=
  "Satellite Image Metadata Report\n\nThis report provides information about satellite image files in the specified directory.\n\n\n\n"

/-- The horizontal rule separating year blocks (57 dashes). -/
def hrRule : String :=
  "---------------------------------------------------------\n\n"

/-- One `(band) - file1, file2, ...` line of the report. -/
def renderBandLine (b : String × List String) : String :=
  "(" ++ b.1 ++ ") - " ++ String.intercalate ", " b.2 ++ "\n"

/-- One month subsection: the month on its own line, the band lines in
ascending band order, then a blank line. -/
def renderMonthSection (m : String × List (String × List String)) : String :=
  m.1 ++ "\n" ++ String.join ((List.insertionSort fstLeR m.2).map renderBandLine) ++ "\n"

/-- One year block: the `**year**` title, the `Missing Months:` line when
the gap set `{"01",...,"12"} - structured_data[year].keys()` is non-empty,
then one subsection per month present, in ascending month order. -/
def renderYearBlock (year : String)
    (months : List (String × List (String × List String))) : String :=
  let missing := List.insertionSort strLeR
    (allMonths.filter fun mo => !(months.any fun p => p.1 == mo))
  "**" ++ year ++ "**\n" ++
    (if missing = [] then ""
     else "Missing Months: " ++ String.intercalate ", " missing ++ "\n\n") ++
    String.join ((List.insertionSort fstLeR months).map renderMonthSection)

/-- `organize_satellite_data_txt` from `src/landsat_data_processor.py`: fold
every filename into the nested accumulator, then render the header and one
block per year in ascending year order, appending the horizontal rule after
every year except the last (`if year != years[-1]`; the year keys are
distinct, so the comparison with `years[-1]` holds exactly at the final
iteration). -/
def organize_satellite_data_txt (image_filenames : List String) : String :=
  let sd := image_filenames.foldl txtFold []
  let years := List.insertionSort strLeR (sd.map Prod.fst)
  reportHeader ++ String.join (years.map fun year =>
    renderYearBlock year (lookupD sd year []) ++
      (if some year ≠ years.getLast? then hrRule else ""))

/-! ## `create_satellite_images_paths` -/

/-- `settings.IMAGES_DATASET.ORIGINAL_DATASET_IMAGE_EXTENSION` from
`src/settings.py`. -/
def ORIGINAL_DATASET_IMAGE_EXTENSION : String := "TIF"

/-- `os.path.join(image_directory, filename)`, modelled for the case of a
directory without a trailing separator and a relative filename. -/
def pathJoin (dir f : String) : String := dir ++ "/" ++ f

/-- The paths contributed by one `values` entry: one rebuilt filename per
band, joining the fields in grammar order with the year-level
correction level / collection number / collection category. -/
def groupPaths (dir cl cn cc : String) (v : GroupValue) : List String :=
  v.bands.map fun band =>
    pathJoin dir (v.satellite ++ "_" ++ cl ++ "_" ++ v.wrs ++ "_" ++
      v.acquisition_date ++ "_" ++ v.processing_date ++ "_" ++ cn ++ "_" ++
      cc ++ "_" ++ band ++ "." ++ ORIGINAL_DATASET_IMAGE_EXTENSION)

/-- One year's iteration of `create_satellite_images_paths`: take the first
element of each of the three year-level lists (`IndexError` on an empty
list is modelled as `none`) and append one path per band of every group. -/
def createStep (image_directory : String) (acc : Option (List String))
    (p : String × YearOutput) : Option (List String) := do
  let paths ← acc
  let cl ← p.2.correction_level.head?
  let cn ← p.2.collection_number.head?
  let cc ← p.2.collection_category.head?
  pure (paths ++ p.2.values.flatMap (groupPaths image_directory cl cn cc))

/-- `create_satellite_images_paths` from `src/landsat_data_processor.py`.
The source reads `image_data["correction_level"][0]` (and the two other
`[0]`s): indexing an empty list raises `IndexError`, which we model by
returning `none`; on success the collected path list is returned. -/
def create_satellite_images_paths
    (landsat_images_data : List (String × YearOutput))
    (image_directory : String) : Option (List String) :=
  landsat_images_data.foldl (createStep image_directory) (some [])

/-! ## Order-theoretic facts about the string comparison -/

/-- Rebuild a character from its code point. -/
theorem charEq_of_toNat_eq {a b : Char} (h : a.toNat = b.toNat) : a = b :=
  Char.eq_of_val_eq (UInt32.ext h)

theorem lexLe_refl : ∀ l : List Char, lexLe l l = true
  | [] => rfl
  | a :: as => by
    simp [lexLe, lexLe_refl as]

theorem lexLe_total : ∀ a b : List Char, lexLe a b = true ∨ lexLe b a = true
  | [], _ => Or.inl rfl
  | _ :: _, [] => Or.inr rfl
  | a :: as, b :: bs => by
    simp only [lexLe, Bool.or_eq_true, Bool.and_eq_true, beq_iff_eq,
      decide_eq_true_eq]
    rcases Nat.lt_trichotomy a.toNat b.toNat with h | h | h
    · exact Or.inl (Or.inl h)
    · have hab : a = b := charEq_of_toNat_eq h
      rcases lexLe_total as bs with h' | h'
      · exact Or.inl (Or.inr ⟨hab, h'⟩)
      · exact Or.inr (Or.inr ⟨hab.symm, h'⟩)
    · exact Or.inr (Or.inl h)

theorem lexLe_trans : ∀ {a b c : List Char},
    lexLe a b = true → lexLe b c = true → lexLe a c = true
  | [], _, _, _, _ => rfl
  | _ :: _, [], _, h, _ => by simp [lexLe] at h
  | _ :: _, _ :: _, [], _, h => by simp [lexLe] at h
  | a :: as, b :: bs, c :: cs, h1, h2 => by
    simp only [lexLe, Bool.or_eq_true, Bool.and_eq_true, beq_iff_eq,
      decide_eq_true_eq] at h1 h2 ⊢
    rcases h1 with h1 | ⟨rfl, h1⟩
    · rcases h2 with h2 | ⟨rfl, _⟩
      · exact Or.inl (Nat.lt_trans h1 h2)
      · exact Or.inl h1
    · rcases h2 with h2 | ⟨rfl, h2⟩
      · exact Or.inl h2
      · exact Or.inr ⟨rfl, lexLe_trans h1 h2⟩

theorem lexLe_antisymm : ∀ {a b : List Char},
    lexLe a b = true → lexLe b a = true → a = b
  | [], [], _, _ => rfl
  | [], _ :: _, _, h => by simp [lexLe] at h
  | _ :: _, [], h, _ => by simp [lexLe] at h
  | a :: as, b :: bs, h1, h2 => by
    simp only [lexLe, Bool.or_eq_true, Bool.and_eq_true, beq_iff_eq,
      decide_eq_true_eq] at h1 h2
    rcases h1 with h1 | ⟨rfl, h1⟩
    · rcases h2 with h2 | ⟨rfl, _⟩
      · exact absurd h2 (Nat.lt_asymm h1)
      · exact absurd h1 (Nat.lt_irrefl _)
    · rcases h2 with h2 | ⟨_, h2⟩
      · exact absurd h2 (Nat.lt_irrefl _)
      · exact congrArg (a :: ·) (lexLe_antisymm h1 h2)

instance : IsRefl String strLeR := ⟨fun a => lexLe_refl a.data⟩

instance : IsTotal String strLeR := ⟨fun a b => lexLe_total a.data b.data⟩

instance : IsTrans String strLeR := ⟨fun _ _ _ => lexLe_trans⟩

instance : IsAntisymm String strLeR :=
  ⟨fun a b h1 h2 => by
    cases a; cases b
    exact congrArg String.mk (lexLe_antisymm h1 h2)⟩

instance {α : Type} : IsTotal (String × α) (fstLeR (α := α)) :=
  ⟨fun a b => IsTotal.total (r := strLeR) a.1 b.1⟩

instance {α : Type} : IsTrans (String × α) (fstLeR (α := α)) :=
  ⟨fun _ _ _ h1 h2 => lexLe_trans h1 h2⟩

instance : IsTotal (GroupKey × List String) valueLeR :=
  ⟨fun a b => IsTotal.total (r := strLeR) a.1.2.2.1 b.1.2.2.1⟩

instance : IsTrans (GroupKey × List String) valueLeR :=
  ⟨fun _ _ _ h1 h2 => lexLe_trans h1 h2⟩

/-! ## Inversion lemmas for the decoder -/

theorem takeN_eq_some {n : Nat} {l a r : List Char} :
    takeN n l = some (a, r) ↔ a.length = n ∧ l = a ++ r := by
  constructor
  · intro h
    unfold takeN at h
    split at h
    · rename_i hn
      rw [Option.some.injEq, Prod.mk.injEq] at h
      obtain ⟨rfl, rfl⟩ := h
      exact ⟨List.length_take_of_le hn, (List.take_append_drop n l).symm⟩
    · exact absurd h (by simp)
  · rintro ⟨rfl, rfl⟩
    unfold takeN
    rw [if_pos (by simp)]
    simp

theorem fieldU_eq_some {n : Nat} {check : List Char → Bool} {l a r : List Char} :
    fieldU n check l = some (a, r) ↔
      a.length = n ∧ check a = true ∧ l = a ++ '_' :: r := by
  constructor
  · intro h
    unfold fieldU at h
    split at h
    · exact absurd h (by simp)
    · rename_i a' r' htake
      rw [takeN_eq_some] at htake
      split at h
      · rename_i hcheck
        split at h
        · exact absurd h (by simp)
        · rename_i c r'' 
          split at h
          · rename_i hc
            rw [Option.some.injEq, Prod.mk.injEq] at h
            obtain ⟨rfl, rfl⟩ := h
            subst hc
            exact ⟨htake.1, hcheck, htake.2⟩
          · exact absurd h (by simp)
      · exact absurd h (by simp)
  · rintro ⟨hlen, hcheck, rfl⟩
    unfold fieldU
    have : takeN n (a ++ '_' :: r) = some (a, '_' :: r) :=
      takeN_eq_some.mpr ⟨hlen, rfl⟩
    rw [this]
    simp [hcheck]

theorem fieldU_none_shape {n : Nat} {check : List Char → Bool} {l : List Char} :
    (∀ a r, l = a ++ '_' :: r → a.length = n → check a = true → False) →
    fieldU n check l = none := by
  intro h
  cases hf : fieldU n check l with
  | none => rfl
  | some p =>
    obtain ⟨a, r⟩ := p
    rw [fieldU_eq_some] at hf
    exact (h a r hf.2.2 hf.1 hf.2.1).elim

/-- All characters of `takeWhile p l` satisfy `p`, and if `dropWhile` is
nonempty its head refutes `p`; conversely a split `l = xs ++ rest` with all
of `xs` satisfying `p` and the head of `rest` refuting it is exactly the
takeWhile/dropWhile split. -/
theorem takeWhile_append_eq {p : Char → Bool} :
    ∀ {xs : List Char}, (∀ c ∈ xs, p c = true) →
      ∀ (y : Char) (ys : List Char), p y = false →
        (xs ++ y :: ys).takeWhile p = xs ∧ (xs ++ y :: ys).dropWhile p = y :: ys := by
  intro xs
  induction xs with
  | nil =>
    intro _ y ys hy
    simp [List.takeWhile, List.dropWhile, hy]
  | cons x xs ih =>
    intro hall y ys hy
    have hx : p x = true := hall x (by simp)
    have ih' := ih (fun c hc => hall c (by simp [hc])) y ys hy
    simp [List.takeWhile, List.dropWhile, hx, ih'.1, ih'.2]

theorem mk_data (l : List Char) : (String.mk l).data = l := rfl

theorem underscore_data : ("_" : String).data = ['_'] := rfl

theorem tif_data : (".TIF" : String).data = tifTail := rfl

theorem satCheck_length {s : List Char} (h : satCheck s = true) :
    s.length = 4 := by
  unfold satCheck at h
  split at h
  · rfl
  · exact Bool.noConfusion h

theorem corrCheck_length {s : List Char} (h : corrCheck s = true) :
    s.length = 4 := by
  simp only [corrCheck, Bool.or_eq_true, decide_eq_true_eq] at h
  rcases h with rfl | rfl <;> rfl

theorem dateCheck_length {s : List Char} (h : dateCheck s = true) :
    s.length = 8 := by
  unfold dateCheck at h
  split at h
  · rfl
  · exact Bool.noConfusion h

theorem catCheck_length {s : List Char} (h : catCheck s = true) :
    s.length = 2 := by
  simp only [catCheck, Bool.or_eq_true, decide_eq_true_eq] at h
  rcases h with (rfl | rfl) | rfl <;> rfl

theorem surfCheck_length {s : List Char} (h : surfCheck s = true) :
    s.length = 2 := by
  simp only [surfCheck, Bool.or_eq_true, decide_eq_true_eq] at h
  rcases h with rfl | rfl <;> rfl

/-- The building-block step of grammar soundness: a field of the right
length and satisfying its check, followed by an underscore, is split off. -/
theorem fieldU_build {n : Nat} {check : List Char → Bool} {a r : List Char}
    (hl : a.length = n) (hc : check a = true) :
    fieldU n check (a ++ '_' :: r) = some (a, r) :=
  fieldU_eq_some.mpr ⟨hl, hc, rfl⟩

theorem ne_nil_of_isEmpty_false {α : Type} {l : List α}
    (h : l.isEmpty = false) : l ≠ [] := by
  cases l
  · exact absurd h (by simp)
  · simp

/-- Grammar soundness: decoding the canonical rendering of any well-formed
record succeeds and returns exactly that record. -/
theorem decodeCore_render {d : FilenameComponents} (h : wellFormed d = true) :
    decodeCore (renderFilename d).data = some d := by
  obtain ⟨⟨sat⟩, ⟨corr⟩, ⟨wrs⟩, ⟨acq⟩, ⟨proc⟩, ⟨cn⟩, ⟨cat⟩, ⟨sf⟩, ⟨band⟩⟩ := d
  simp only [wellFormed, Bool.and_eq_true, mk_data, beq_iff_eq,
    Bool.not_eq_true'] at h
  obtain ⟨⟨⟨⟨⟨⟨⟨⟨hsat, hcorr⟩, hwrsl, hwrs⟩, hacq⟩, hproc⟩, hcnl, hcn⟩,
    hcat⟩, hsf⟩, hbne, hball⟩ := h
  have hdata : (renderFilename ⟨⟨sat⟩, ⟨corr⟩, ⟨wrs⟩, ⟨acq⟩, ⟨proc⟩, ⟨cn⟩,
      ⟨cat⟩, ⟨sf⟩, ⟨band⟩⟩).data =
      sat ++ '_' :: (corr ++ '_' :: (wrs ++ '_' :: (acq ++ '_' :: (proc ++
        '_' :: (cn ++ '_' :: (cat ++ '_' :: (sf ++ '_' ::
          (band ++ tifTail)))))))) := by
    simp [renderFilename, String.data_append, underscore_data, tif_data,
      mk_data, tifTail]
  rw [hdata]
  have hdot : isBandChar '.' = false := rfl
  have hsplit := takeWhile_append_eq (p := isBandChar)
    (fun c hc => List.all_eq_true.mp hball c hc)
    '.' ['T', 'I', 'F'] hdot
  have htif : (band ++ tifTail).takeWhile isBandChar = band := hsplit.1
  have htif2 : (band ++ tifTail).dropWhile isBandChar = tifTail := hsplit.2
  simp only [decodeCore,
    fieldU_build (satCheck_length hsat) hsat,
    fieldU_build (corrCheck_length hcorr) hcorr,
    fieldU_build hwrsl hwrs,
    fieldU_build (dateCheck_length hacq) hacq,
    fieldU_build (dateCheck_length hproc) hproc,
    fieldU_build hcnl hcn,
    fieldU_build (catCheck_length hcat) hcat,
    fieldU_build (surfCheck_length hsf) hsf,
    htif, htif2]
  simp [ne_nil_of_isEmpty_false hbne]

/-- Grammar completeness: a successful decode implies the record is
well-formed and the input string is exactly the record's canonical
rendering, or that rendering followed by a single trailing newline (the
Python `$`-before-final-newline acceptance). -/
theorem decodeCore_some {l : List Char} {d : FilenameComponents}
    (h : decodeCore l = some d) :
    wellFormed d = true ∧
      (l = (renderFilename d).data ∨
        l = (renderFilename d).data ++ ['\n']) := by
  unfold decodeCore at h
  split at h
  · exact absurd h (by simp)
  rename_i sat l1 hf1
  split at h
  · exact absurd h (by simp)
  rename_i corr l2 hf2
  split at h
  · exact absurd h (by simp)
  rename_i wrs l3 hf3
  split at h
  · exact absurd h (by simp)
  rename_i acq l4 hf4
  split at h
  · exact absurd h (by simp)
  rename_i proc l5 hf5
  split at h
  · exact absurd h (by simp)
  rename_i cn l6 hf6
  split at h
  · exact absurd h (by simp)
  rename_i cat l7 hf7
  split at h
  · exact absurd h (by simp)
  rename_i sf l8 hf8
  rw [fieldU_eq_some] at hf1 hf2 hf3 hf4 hf5 hf6 hf7 hf8
  obtain ⟨hl1, hc1, rfl⟩ := hf1
  obtain ⟨hl2, hc2, rfl⟩ := hf2
  obtain ⟨hl3, hc3, rfl⟩ := hf3
  obtain ⟨hl4, hc4, rfl⟩ := hf4
  obtain ⟨hl5, hc5, rfl⟩ := hf5
  obtain ⟨hl6, hc6, rfl⟩ := hf6
  obtain ⟨hl7, hc7, rfl⟩ := hf7
  obtain ⟨hl8, hc8, rfl⟩ := hf8
  dsimp only at h
  split at h
  · exact absurd h (by simp)
  rename_i hbne
  split at h
  · rename_i hrest
    rw [Option.some.injEq] at h
    subst h
    have hsplitl8 := List.takeWhile_append_dropWhile isBandChar l8
    have hball : (l8.takeWhile isBandChar).all isBandChar = true :=
      List.all_eq_true.mpr fun c hc => List.mem_takeWhile_imp hc
    have hwf : wellFormed ⟨⟨sat⟩, ⟨corr⟩, ⟨wrs⟩, ⟨acq⟩, ⟨proc⟩, ⟨cn⟩, ⟨cat⟩,
        ⟨sf⟩, ⟨l8.takeWhile isBandChar⟩⟩ = true := by
      simp only [wellFormed, mk_data, Bool.and_eq_true, beq_iff_eq,
        Bool.not_eq_true']
      refine ⟨⟨⟨⟨⟨⟨⟨⟨hc1, hc2⟩, hl3, hc3⟩, hc4⟩, hc5⟩, hl6, hc6⟩, hc7⟩, hc8⟩,
        ?_, hball⟩
      cases hb : l8.takeWhile isBandChar
      · exact absurd hb hbne
      · rfl
    refine ⟨hwf, ?_⟩
    have hrender : (renderFilename ⟨⟨sat⟩, ⟨corr⟩, ⟨wrs⟩, ⟨acq⟩, ⟨proc⟩,
        ⟨cn⟩, ⟨cat⟩, ⟨sf⟩, ⟨l8.takeWhile isBandChar⟩⟩).data =
        sat ++ '_' :: (corr ++ '_' :: (wrs ++ '_' :: (acq ++ '_' :: (proc ++
          '_' :: (cn ++ '_' :: (cat ++ '_' :: (sf ++ '_' ::
            (l8.takeWhile isBandChar ++ tifTail)))))))) := by
      simp [renderFilename, String.data_append, underscore_data, tif_data,
        mk_data, tifTail]
    rw [hrender]
    set b := l8.takeWhile isBandChar
    rcases hrest with hrest | hrest
    · left
      have hl8 : l8 = b ++ tifTail := by
        rw [← hrest]; exact hsplitl8.symm
      rw [hl8]
    · right
      have hl8 : l8 = b ++ tifTailNl := by
        rw [← hrest]; exact hsplitl8.symm
      rw [hl8]
      simp [tifTail, tifTailNl, List.append_assoc]
  · exact absurd h (by simp)

/-- String-level grammar soundness. -/
theorem decode_render {d : FilenameComponents} (h : wellFormed d = true) :
    decode_satellite_filename (renderFilename d) = some d :=
  decodeCore_render h

/-- String-level grammar completeness: a successful decode means the input
was the record's rendering, possibly with one trailing newline. -/
theorem decode_some_shape {f : String} {d : FilenameComponents}
    (h : decode_satellite_filename f = some d) :
    wellFormed d = true ∧
      (f = renderFilename d ∨ f = renderFilename d ++ "\n") := by
  obtain ⟨hwf, hshape⟩ := decodeCore_some h
  refine ⟨hwf, ?_⟩
  rcases hshape with hs | hs
  · exact Or.inl (String.ext hs)
  · refine Or.inr (String.ext ?_)
    rw [String.data_append, hs]

/-- A field of the right width that fails its check stops the match. -/
theorem fieldU_fail {n : Nat} {check : List Char → Bool} {a r : List Char}
    (hl : a.length = n) (hc : check a = false) :
    fieldU n check (a ++ '_' :: r) = none := by
  unfold fieldU
  rw [takeN_eq_some.mpr ⟨hl, rfl⟩]
  simp [hc]

/-- Modelled from the spec's grammar (for refinement comparison only): the
spec writes the surface field as `[A-Z]{2}`, any two uppercase letters. -/
def specSurfCheck (s : List Char) : Bool := s.length == 2 && s.all isUpperC

/-- Modelled from the spec's grammar (for refinement comparison only):
well-formedness with the spec's `[A-Z]{2}` surface field in place of the
decoder's `ST|SR`. -/
def specWellFormed (d : FilenameComponents) : Bool :=
  satCheck d.satellite.data &&
  corrCheck d.correction_level.data &&
  (d.wrs.data.length == 6 && wrsCheck d.wrs.data) &&
  dateCheck d.acquisition_date.data &&
  dateCheck d.processing_date.data &&
  (d.collection_number.data.length == 2 && cnCheck d.collection_number.data) &&
  catCheck d.collection_category.data &&
  specSurfCheck d.surface.data &&
  (!d.band.data.isEmpty && d.band.data.all isBandChar)

/-- A spec-grammar record whose surface is neither `ST` nor `SR` is
rejected by the decoder. -/
theorem decode_render_spec_surface {d : FilenameComponents}
    (h : specWellFormed d = true) (h1 : d.surface ≠ "ST")
    (h2 : d.surface ≠ "SR") :
    decode_satellite_filename (renderFilename d) = none := by
  obtain ⟨⟨sat⟩, ⟨corr⟩, ⟨wrs⟩, ⟨acq⟩, ⟨proc⟩, ⟨cn⟩, ⟨cat⟩, ⟨sf⟩, ⟨band⟩⟩ := d
  simp only [specWellFormed, Bool.and_eq_true, mk_data, beq_iff_eq,
    Bool.not_eq_true'] at h
  obtain ⟨⟨⟨⟨⟨⟨⟨⟨hsat, hcorr⟩, hwrsl, hwrs⟩, hacq⟩, hproc⟩, hcnl, hcn⟩,
    hcat⟩, hsf⟩, hbne, hball⟩ := h
  simp only [specSurfCheck, Bool.and_eq_true, beq_iff_eq] at hsf
  have hsfF : surfCheck sf = false := by
    simp only [surfCheck, Bool.or_eq_false_iff, decide_eq_false_iff_not]
    constructor
    · intro hd
      exact h1 (String.ext hd)
    · intro hd
      exact h2 (String.ext hd)
  have hdata : (renderFilename ⟨⟨sat⟩, ⟨corr⟩, ⟨wrs⟩, ⟨acq⟩, ⟨proc⟩, ⟨cn⟩,
      ⟨cat⟩, ⟨sf⟩, ⟨band⟩⟩).data =
      sat ++ '_' :: (corr ++ '_' :: (wrs ++ '_' :: (acq ++ '_' :: (proc ++
        '_' :: (cn ++ '_' :: (cat ++ '_' :: (sf ++ '_' ::
          (band ++ tifTail)))))))) := by
    simp [renderFilename, String.data_append, underscore_data, tif_data,
      mk_data, tifTail]
  show decodeCore _ = none
  rw [hdata]
  simp only [decodeCore,
    fieldU_build (satCheck_length hsat) hsat,
    fieldU_build (corrCheck_length hcorr) hcorr,
    fieldU_build hwrsl hwrs,
    fieldU_build (dateCheck_length hacq) hacq,
    fieldU_build (dateCheck_length hproc) hproc,
    fieldU_build hcnl hcn,
    fieldU_build (catCheck_length hcat) hcat,
    fieldU_fail hsf.1 hsfF]

/-! ## Numeric characterization of the date sub-pattern -/

/-- The numeric value of an ASCII digit character. -/
def digitVal (c : Char) : Nat := c.toNat - 48

theorem charEq_iff_toNat_eq {a b : Char} : a = b ↔ a.toNat = b.toNat :=
  ⟨fun h => h ▸ rfl, charEq_of_toNat_eq⟩

theorem isDigitC_iff {c : Char} :
    isDigitC c = true ↔ 48 ≤ c.toNat ∧ c.toNat ≤ 57 := by
  simp [isDigitC]

theorem monthCheck_iff {m1 m2 : Char} :
    monthCheck m1 m2 = true ↔
      isDigitC m1 = true ∧ isDigitC m2 = true ∧
        1 ≤ 10 * digitVal m1 + digitVal m2 ∧
        10 * digitVal m1 + digitVal m2 ≤ 12 := by
  have h0 : ('0' : Char).toNat = 48 := rfl
  have h1 : ('1' : Char).toNat = 49 := rfl
  have h2 : ('2' : Char).toNat = 50 := rfl
  simp only [monthCheck, Bool.or_eq_true, Bool.and_eq_true, beq_iff_eq,
    bne_iff_ne, isDigitC_iff, digitVal, charEq_iff_toNat_eq, ne_eq,
    h0, h1, h2]
  omega

theorem dayCheck_iff {d1 d2 : Char} :
    dayCheck d1 d2 = true ↔
      isDigitC d1 = true ∧ isDigitC d2 = true ∧
        1 ≤ 10 * digitVal d1 + digitVal d2 ∧
        10 * digitVal d1 + digitVal d2 ≤ 31 := by
  have h0 : ('0' : Char).toNat = 48 := rfl
  have h1 : ('1' : Char).toNat = 49 := rfl
  have h2 : ('2' : Char).toNat = 50 := rfl
  have h3 : ('3' : Char).toNat = 51 := rfl
  simp only [dayCheck, Bool.or_eq_true, Bool.and_eq_true, beq_iff_eq,
    bne_iff_ne, isDigitC_iff, digitVal, charEq_iff_toNat_eq, ne_eq,
    h0, h1, h2, h3]
  omega

/-! ## Claim theorems: the decoder (C2, C3, C9) and skip behaviour (C7) -/

/-- C2 (counterexample): the claim says any two-uppercase-letter surface
token is accepted.  The record below instantiates the spec's grammar
(`specWellFormed`, surface `AB`), its rendering is the printed filename,
yet the decoder rejects it: the source pattern restricts the surface group
to `ST|SR`. -/
theorem C2_counterexample :
    specWellFormed ⟨"LC08", "L2SP", "123045", "20200115", "20200120", "02",
        "T1", "AB", "B4"⟩ = true ∧
    renderFilename ⟨"LC08", "L2SP", "123045", "20200115", "20200120", "02",
        "T1", "AB", "B4"⟩ =
      "LC08_L2SP_123045_20200115_20200120_02_T1_AB_B4.TIF" ∧
    decode_satellite_filename
      "LC08_L2SP_123045_20200115_20200120_02_T1_AB_B4.TIF" = none := by
  refine ⟨by decide, ?_, by decide⟩
  decide

/-- C2 (amended): the decoder accepts exactly the surface tokens `ST` and
`SR`.  Every well-formed record (surface `ST`/`SR`) round-trips through
`decode_satellite_filename` with all fields captured as written, and every
spec-grammar record whose two-uppercase-letter surface is neither `ST` nor
`SR` is rejected with the no-match signal. -/
theorem C2_amended_surface :
    (∀ d : FilenameComponents, wellFormed d = true →
        decode_satellite_filename (renderFilename d) = some d) ∧
    (∀ d : FilenameComponents, specWellFormed d = true →
        d.surface ≠ "ST" → d.surface ≠ "SR" →
        decode_satellite_filename (renderFilename d) = none) :=
  ⟨fun _ h => decode_render h,
   fun _ h h1 h2 => decode_render_spec_surface h h1 h2⟩

/-- Witness for `C2_amended_surface` at concrete records. -/
theorem C2_amended_surface_witness :
    decode_satellite_filename (renderFilename ⟨"LC08", "L2SP", "123045",
        "20200115", "20200120", "02", "T1", "SR", "B4"⟩) =
      some ⟨"LC08", "L2SP", "123045", "20200115", "20200120", "02", "T1",
        "SR", "B4"⟩ ∧
    decode_satellite_filename (renderFilename ⟨"LC08", "L2SP", "123045",
        "20200115", "20200120", "02", "T1", "AB", "B4"⟩) = none :=
  ⟨C2_amended_surface.1 _ (by decide),
   C2_amended_surface.2 _ (by decide) (by decide) (by decide)⟩

/-- C3 (counterexample): the claim says every string that is not an exact
anchored grammar match decodes to `None`.  A valid filename followed by a
single trailing newline is not a grammar match (every rendering ends in
`F`), yet Python's `$` matches just before a final newline, so the decode
succeeds. -/
theorem C3_counterexample :
    ¬ grammarMatch "LC08_L2SP_123045_20200115_20200120_02_T1_SR_B4.TIF\n" ∧
    decode_satellite_filename
      "LC08_L2SP_123045_20200115_20200120_02_T1_SR_B4.TIF\n" ≠ none := by
  constructor
  · rintro ⟨d, _, heq⟩
    have h1 : ("LC08_L2SP_123045_20200115_20200120_02_T1_SR_B4.TIF\n" :
        String).data.getLast? = some '\n' := by decide
    rw [heq] at h1
    unfold renderFilename at h1
    rw [String.data_append] at h1
    rw [List.getLast?_append_of_ne_nil _ (by simp [tif_data, tifTail])] at h1
    rw [tif_data] at h1
    exact absurd h1 (by decide)
  · decide

/-- C3 (amended): decoding returns the no-match signal for every string
that neither matches the grammar exactly nor is an exact match followed by
one trailing newline; in particular both cited rejection examples return
the no-match signal. -/
theorem C3_amended_rejection :
    (∀ s : String, decode_satellite_filename s = none ∨ grammarMatch s ∨
        ∃ s' : String, grammarMatch s' ∧ s = s' ++ "\n") ∧
    decode_satellite_filename "not_a_valid_filename.TIF" = none ∧
    decode_satellite_filename
      "LC08_L2SP_123045_20201301_20200120_02_T1_SR_B4.TIF" = none := by
  refine ⟨?_, by decide, by decide⟩
  intro s
  cases h : decode_satellite_filename s with
  | none => exact Or.inl rfl
  | some d =>
    obtain ⟨hwf, hsh⟩ := decode_some_shape h
    rcases hsh with rfl | rfl
    · exact Or.inr (Or.inl ⟨d, hwf, rfl⟩)
    · exact Or.inr (Or.inr ⟨renderFilename d, ⟨d, hwf, rfl⟩, rfl⟩)

/-- C9 (confirmed): the date sub-pattern accepts exactly the 8-character
digit strings with year prefix `19`/`20`, month value 01–12 and day value
01–31, with no day-against-month check: `20200230` (Feb 30) decodes
successfully, while month `00`/`13` and day `00`/`32` are rejected. -/
theorem C9_date_pattern :
    (∀ l : List Char, dateCheck l = true → l.length = 8) ∧
    (∀ y1 y2 y3 y4 m1 m2 d1 d2 : Char,
      dateCheck [y1, y2, y3, y4, m1, m2, d1, d2] = true ↔
        ((y1 = '1' ∧ y2 = '9') ∨ (y1 = '2' ∧ y2 = '0')) ∧
        isDigitC y3 = true ∧ isDigitC y4 = true ∧
        isDigitC m1 = true ∧ isDigitC m2 = true ∧
        1 ≤ 10 * digitVal m1 + digitVal m2 ∧
        10 * digitVal m1 + digitVal m2 ≤ 12 ∧
        isDigitC d1 = true ∧ isDigitC d2 = true ∧
        1 ≤ 10 * digitVal d1 + digitVal d2 ∧
        10 * digitVal d1 + digitVal d2 ≤ 31) ∧
    decode_satellite_filename
        "LC08_L2SP_123045_20200230_20200120_02_T1_SR_B4.TIF" =
      some ⟨"LC08", "L2SP", "123045", "20200230", "20200120", "02", "T1",
        "SR", "B4"⟩ ∧
    decode_satellite_filename
      "LC08_L2SP_123045_20200030_20200120_02_T1_SR_B4.TIF" = none ∧
    decode_satellite_filename
      "LC08_L2SP_123045_20201330_20200120_02_T1_SR_B4.TIF" = none ∧
    decode_satellite_filename
      "LC08_L2SP_123045_20200100_20200120_02_T1_SR_B4.TIF" = none ∧
    decode_satellite_filename
      "LC08_L2SP_123045_20200132_20200120_02_T1_SR_B4.TIF" = none := by
  refine ⟨fun l h => dateCheck_length h, ?_, by decide, by decide, by decide,
    by decide, by decide⟩
  intro y1 y2 y3 y4 m1 m2 d1 d2
  simp only [dateCheck, Bool.and_eq_true, Bool.or_eq_true, beq_iff_eq,
    monthCheck_iff, dayCheck_iff]
  tauto

/-- Witness for `C9_date_pattern` at a concrete date string. -/
theorem C9_date_pattern_witness :
    "20200230".data.length = 8 ∧
      dateCheck "20200230".data = true :=
  ⟨C9_date_pattern.1 "20200230".data (by decide), by decide⟩

/-- C7 (confirmed): an undecodable filename anywhere in the batch is
skipped (after the reported notice, which the model elides): both
aggregates equal the aggregates of the same list with that filename
removed, so one malformed filename never aborts the batch nor alters the
other filenames' contribution. -/
theorem C7_decode_failure_skip :
    ∀ (l1 l2 : List String) (bad : String),
      decode_satellite_filename bad = none →
      organize_satellite_data_json (l1 ++ bad :: l2) =
        organize_satellite_data_json (l1 ++ l2) ∧
      organize_satellite_data_txt (l1 ++ bad :: l2) =
        organize_satellite_data_txt (l1 ++ l2) := by
  intro l1 l2 bad hbad
  have hj : ∀ sd, jsonFold sd bad = sd := fun sd => by
    unfold jsonFold
    rw [hbad]
  have ht : ∀ sd, txtFold sd bad = sd := fun sd => by
    unfold txtFold
    rw [hbad]
  constructor
  · unfold organize_satellite_data_json
    rw [List.foldl_append, List.foldl_append, List.foldl_cons, hj]
  · unfold organize_satellite_data_txt
    rw [List.foldl_append, List.foldl_append, List.foldl_cons, ht]

/-- Witness for `C7_decode_failure_skip` at a concrete batch. -/
theorem C7_decode_failure_skip_witness :
    organize_satellite_data_json
        (["LC08_L2SP_123045_20200115_20200120_02_T1_SR_B4.TIF"] ++
          "junk.TIF" :: []) =
      organize_satellite_data_json
        (["LC08_L2SP_123045_20200115_20200120_02_T1_SR_B4.TIF"] ++ []) ∧
    organize_satellite_data_txt
        (["LC08_L2SP_123045_20200115_20200120_02_T1_SR_B4.TIF"] ++
          "junk.TIF" :: []) =
      organize_satellite_data_txt
        (["LC08_L2SP_123045_20200115_20200120_02_T1_SR_B4.TIF"] ++ []) :=
  C7_decode_failure_skip _ _ _ (by decide)

/-! ## Association-list and set-model lemmas for the aggregator -/

/-- First-match association lookup (Python dict access). -/
def assocFind {κ β : Type} [DecidableEq κ] :
    List (κ × β) → κ → Option β
  | [], _ => none
  | (k', v) :: rest, k => if k' = k then some v else assocFind rest k

theorem setAdd_mem {s : List String} {x v : String} :
    x ∈ setAdd s v ↔ x ∈ s ∨ x = v := by
  unfold setAdd
  split
  · rename_i hv
    constructor
    · exact Or.inl
    · rintro (h | rfl)
      · exact h
      · exact hv
  · simp

theorem setAdd_nodup {s : List String} {v : String} (h : s.Nodup) :
    (setAdd s v).Nodup := by
  unfold setAdd
  split
  · exact h
  · rename_i hv
    simp [List.nodup_append, h, hv]

theorem setAdd_ne_nil {s : List String} {v : String} : setAdd s v ≠ [] := by
  unfold setAdd
  split
  · rename_i hv
    rintro rfl
    exact absurd hv (by simp)
  · simp

theorem valuesAdd_find_eq {vs : List (GroupKey × List String)}
    {k : GroupKey} {b : String} :
    assocFind (valuesAdd vs k b) k =
      some (setAdd ((assocFind vs k).getD []) b) := by
  induction vs with
  | nil => simp [valuesAdd, assocFind, setAdd]
  | cons p rest ih =>
    obtain ⟨k', bs⟩ := p
    unfold valuesAdd
    split
    · rename_i h
      subst h
      simp [assocFind]
    · rename_i h
      simp only [assocFind]
      rw [if_neg h, if_neg h]
      exact ih

theorem valuesAdd_find_ne {vs : List (GroupKey × List String)}
    {k k' : GroupKey} {b : String} (h : k' ≠ k) :
    assocFind (valuesAdd vs k b) k' = assocFind vs k' := by
  induction vs with
  | nil =>
    simp only [valuesAdd, assocFind]
    rw [if_neg (fun hh => h hh.symm)]
  | cons p rest ih =>
    obtain ⟨k'', bs⟩ := p
    unfold valuesAdd
    split
    · rename_i hk
      subst hk
      simp only [assocFind]
      rw [if_neg (fun hh => h hh.symm), if_neg (fun hh => h hh.symm)]
    · rename_i hk
      simp only [assocFind]
      split
      · rfl
      · exact ih

theorem valuesAdd_keys {vs : List (GroupKey × List String)}
    {k : GroupKey} {b : String} :
    (valuesAdd vs k b).map Prod.fst =
      if k ∈ vs.map Prod.fst then vs.map Prod.fst
      else vs.map Prod.fst ++ [k] := by
  induction vs with
  | nil => simp [valuesAdd]
  | cons p rest ih =>
    obtain ⟨k', bs⟩ := p
    unfold valuesAdd
    split
    · rename_i h
      subst h
      simp
    · rename_i h
      simp only [List.map_cons, List.mem_cons]
      rw [ih]
      split
      · rename_i hmem
        rw [if_pos (Or.inr hmem)]
      · rename_i hmem
        rw [if_neg (by
          rintro (hh | hh)
          · exact h hh.symm
          · exact hmem hh)]
        simp

theorem assocFind_eq_iff_mem {κ β : Type} [DecidableEq κ]
    {l : List (κ × β)} (hnd : (l.map Prod.fst).Nodup) {k : κ} {v : β} :
    assocFind l k = some v ↔ (k, v) ∈ l := by
  induction l with
  | nil => simp [assocFind]
  | cons p rest ih =>
    obtain ⟨k', v'⟩ := p
    simp only [List.map_cons, List.nodup_cons] at hnd
    obtain ⟨hk', hrest⟩ := hnd
    simp only [assocFind, List.mem_cons]
    split
    · rename_i h
      subst h
      constructor
      · intro hv
        injection hv with hv
        subst hv
        exact Or.inl rfl
      · rintro (heq | hmem)
        · rw [Prod.mk.injEq] at heq
          rw [heq.2]
        · exact absurd (List.mem_map_of_mem Prod.fst hmem) hk'
    · rename_i h
      rw [ih hrest]
      constructor
      · exact Or.inr
      · rintro (heq | hmem)
        · exact absurd (congrArg Prod.fst heq).symm h
        · exact hmem

theorem updateYear_find_eq {sd : List (String × YearData)} {y : String}
    {d : FilenameComponents} :
    assocFind (updateYear sd y d) y =
      some (addDetails ((assocFind sd y).getD emptyYearData) d) := by
  induction sd with
  | nil => simp [updateYear, assocFind]
  | cons p rest ih =>
    obtain ⟨y', yd⟩ := p
    unfold updateYear
    split
    · rename_i h
      subst h
      simp [assocFind]
    · rename_i h
      simp only [assocFind]
      rw [if_neg h, if_neg h]
      exact ih

theorem updateYear_find_ne {sd : List (String × YearData)} {y y' : String}
    {d : FilenameComponents} (h : y' ≠ y) :
    assocFind (updateYear sd y d) y' = assocFind sd y' := by
  induction sd with
  | nil =>
    simp only [updateYear, assocFind]
    rw [if_neg (fun hh => h hh.symm)]
  | cons p rest ih =>
    obtain ⟨y'', yd⟩ := p
    unfold updateYear
    split
    · rename_i hk
      subst hk
      simp only [assocFind]
      rw [if_neg (fun hh => h hh.symm), if_neg (fun hh => h hh.symm)]
    · rename_i hk
      simp only [assocFind]
      split
      · rfl
      · exact ih

theorem updateYear_keys {sd : List (String × YearData)} {y : String}
    {d : FilenameComponents} :
    (updateYear sd y d).map Prod.fst =
      if y ∈ sd.map Prod.fst then sd.map Prod.fst
      else sd.map Prod.fst ++ [y] := by
  induction sd with
  | nil => simp [updateYear]
  | cons p rest ih =>
    obtain ⟨y', yd⟩ := p
    unfold updateYear
    split
    · rename_i h
      subst h
      simp
    · rename_i h
      simp only [List.map_cons, List.mem_cons]
      rw [ih]
      split
      · rename_i hmem
        rw [if_pos (Or.inr hmem)]
      · rename_i hmem
        rw [if_neg (by
          rintro (hh | hh)
          · exact h hh.symm
          · exact hmem hh)]
        simp

/-- The per-year accumulator view: the year's entry, or the `defaultdict`
default when the year has not been touched. -/
def yearView (sd : List (String × YearData)) (y : String) : YearData :=
  (assocFind sd y).getD emptyYearData

/-- The projection of the main fold onto one year: a record is folded into
year `y` exactly when it decodes and its acquisition year is `y`. -/
def yearFold (y : String) (yd : YearData) (f : String) : YearData :=
  match decode_satellite_filename f with
  | none => yd
  | some d => if yearOf d = y then addDetails yd d else yd

theorem yearView_jsonFold {sd : List (String × YearData)} {y : String}
    {f : String} :
    yearView (jsonFold sd f) y = yearFold y (yearView sd y) f := by
  unfold jsonFold yearFold
  cases hd : decode_satellite_filename f with
  | none => rfl
  | some d =>
    show yearView (updateYear sd (yearOf d) d) y =
      if yearOf d = y then addDetails (yearView sd y) d else yearView sd y
    by_cases hy : yearOf d = y
    · subst hy
      unfold yearView
      rw [updateYear_find_eq]
      simp
    · unfold yearView
      rw [updateYear_find_ne (fun hh => hy hh.symm)]
      rw [if_neg hy]

theorem yearView_foldl {fs : List String} {sd : List (String × YearData)}
    {y : String} :
    yearView (fs.foldl jsonFold sd) y =
      fs.foldl (yearFold y) (yearView sd y) := by
  induction fs generalizing sd with
  | nil => rfl
  | cons f fs ih =>
    simp only [List.foldl_cons]
    rw [ih, yearView_jsonFold]

theorem jsonFold_keys_mem {fs : List String} {sd : List (String × YearData)}
    {y : String} :
    y ∈ (fs.foldl jsonFold sd).map Prod.fst ↔
      y ∈ sd.map Prod.fst ∨
        ∃ f ∈ fs, ∃ d, decode_satellite_filename f = some d ∧ yearOf d = y := by
  induction fs generalizing sd with
  | nil => simp
  | cons f fs ih =>
    simp only [List.foldl_cons, List.mem_cons]
    rw [ih]
    unfold jsonFold
    cases hd : decode_satellite_filename f with
    | none =>
      constructor
      · rintro (h | h)
        · exact Or.inl h
        · obtain ⟨f', hf', hrest⟩ := h
          exact Or.inr ⟨f', Or.inr hf', hrest⟩
      · rintro (h | ⟨f', hf', d, hdec, hy⟩)
        · exact Or.inl h
        · rcases hf' with rfl | hf'
          · rw [hd] at hdec
            exact absurd hdec (by simp)
          · exact Or.inr ⟨f', hf', d, hdec, hy⟩
    | some d =>
      rw [updateYear_keys]
      constructor
      · rintro (h | h)
        · split at h
          · exact Or.inl h
          · rcases List.mem_append.mp h with h | h
            · exact Or.inl h
            · refine Or.inr ⟨f, Or.inl rfl, d, hd, ?_⟩
              have hy : y = yearOf d := by simpa using h
              exact hy.symm
        · obtain ⟨f', hf', hrest⟩ := h
          exact Or.inr ⟨f', Or.inr hf', hrest⟩
      · rintro (h | ⟨f', hf', d', hdec, hy⟩)
        · left
          split
          · exact h
          · exact List.mem_append_left _ h
        · rcases hf' with rfl | hf'
          · rw [hd] at hdec
            injection hdec with hdec
            subst hdec
            left
            split
            · rename_i hmem
              subst hy
              exact hmem
            · subst hy
              simp
          · exact Or.inr ⟨f', hf', d', hdec, hy⟩

theorem jsonFold_keys_nodup {fs : List String}
    {sd : List (String × YearData)} (h : (sd.map Prod.fst).Nodup) :
    ((fs.foldl jsonFold sd).map Prod.fst).Nodup := by
  induction fs generalizing sd with
  | nil => exact h
  | cons f fs ih =>
    simp only [List.foldl_cons]
    refine ih ?_
    unfold jsonFold
    cases hd : decode_satellite_filename f with
    | none => exact h
    | some d =>
      rw [updateYear_keys]
      split
      · exact h
      · rename_i hmem
        simp [List.nodup_append, h, hmem]

theorem yearFold_none {y : String} {yd : YearData} {f : String}
    (hd : decode_satellite_filename f = none) : yearFold y yd f = yd := by
  unfold yearFold
  rw [hd]

theorem yearFold_some_eq {y : String} {yd : YearData} {f : String}
    {d : FilenameComponents} (hd : decode_satellite_filename f = some d)
    (hy : yearOf d = y) : yearFold y yd f = addDetails yd d := by
  unfold yearFold
  rw [hd]
  exact if_pos hy

theorem yearFold_some_ne {y : String} {yd : YearData} {f : String}
    {d : FilenameComponents} (hd : decode_satellite_filename f = some d)
    (hy : yearOf d ≠ y) : yearFold y yd f = yd := by
  unfold yearFold
  rw [hd]
  exact if_neg hy

/-- Membership in any of the four set-accumulated fields of a year after
the fold: the base contents plus one entry per decoded record of that
year. -/
theorem foldl_yearFold_proj {proj : YearData → List String}
    {fproj : FilenameComponents → String}
    (hproj : ∀ yd d, proj (addDetails yd d) = setAdd (proj yd) (fproj d))
    {y x : String} :
    ∀ {fs : List String} {yd : YearData},
      x ∈ proj (fs.foldl (yearFold y) yd) ↔
        x ∈ proj yd ∨ ∃ f ∈ fs, ∃ d,
          decode_satellite_filename f = some d ∧ yearOf d = y ∧
            x = fproj d := by
  intro fs
  induction fs with
  | nil => simp
  | cons f fs ih =>
    intro yd
    simp only [List.foldl_cons]
    rw [ih, List.exists_mem_cons_iff]
    cases hd : decode_satellite_filename f with
    | none =>
      rw [yearFold_none hd]
      simp [hd]
    | some d =>
      by_cases hy : yearOf d = y
      · rw [yearFold_some_eq hd hy, hproj, setAdd_mem]
        simp only [hd, Option.some.injEq, hy]
        constructor
        · rintro ((h | h) | h)
          · exact Or.inl h
          · exact Or.inr (Or.inl ⟨d, rfl, hy, h⟩)
          · exact Or.inr (Or.inr h)
        · rintro (h | ⟨d', hd', _, hx⟩ | h)
          · exact Or.inl (Or.inl h)
          · subst hd'
            exact Or.inl (Or.inr hx)
          · exact Or.inr h
      · rw [yearFold_some_ne hd hy]
        simp only [hd, Option.some.injEq]
        constructor
        · rintro (h | h)
          · exact Or.inl h
          · exact Or.inr (Or.inr h)
        · rintro (h | ⟨d', hd', hy', hx⟩ | h)
          · exact Or.inl h
          · subst hd'
            exact absurd hy' hy
          · exact Or.inr h

theorem addDetails_satellites (yd : YearData) (d : FilenameComponents) :
    (addDetails yd d).satellites = setAdd yd.satellites d.satellite := rfl

theorem addDetails_correction (yd : YearData) (d : FilenameComponents) :
    (addDetails yd d).correction_level =
      setAdd yd.correction_level d.correction_level := rfl

theorem addDetails_colnum (yd : YearData) (d : FilenameComponents) :
    (addDetails yd d).collection_number =
      setAdd yd.collection_number d.collection_number := rfl

theorem addDetails_colcat (yd : YearData) (d : FilenameComponents) :
    (addDetails yd d).collection_category =
      setAdd yd.collection_category d.collection_category := rfl

/-- The band set of one group of one year (empty if the group is absent). -/
def bandsView (yd : YearData) (k : GroupKey) : List String :=
  (assocFind yd.values k).getD []

theorem foldl_yearFold_values_keys {y : String} {k : GroupKey} :
    ∀ {fs : List String} {yd : YearData},
      k ∈ (fs.foldl (yearFold y) yd).values.map Prod.fst ↔
        k ∈ yd.values.map Prod.fst ∨ ∃ f ∈ fs, ∃ d,
          decode_satellite_filename f = some d ∧ yearOf d = y ∧
            keyOf d = k := by
  intro fs
  induction fs with
  | nil => simp
  | cons f fs ih =>
    intro yd
    simp only [List.foldl_cons]
    rw [ih, List.exists_mem_cons_iff]
    cases hd : decode_satellite_filename f with
    | none =>
      rw [yearFold_none hd]
      simp [hd]
    | some d =>
      by_cases hy : yearOf d = y
      · rw [yearFold_some_eq hd hy]
        show k ∈ (valuesAdd yd.values (keyOf d) (bandTokenOf d)).map Prod.fst ∨ _ ↔ _
        rw [valuesAdd_keys]
        simp only [hd, Option.some.injEq, hy]
        constructor
        · rintro (h | h)
          · split at h
            · exact Or.inl h
            · rcases List.mem_append.mp h with h | h
              · exact Or.inl h
              · refine Or.inr (Or.inl ⟨d, rfl, hy, ?_⟩)
                have hkk : k = keyOf d := by simpa using h
                exact hkk.symm
          · exact Or.inr (Or.inr h)
        · rintro (h | ⟨d', hd', _, hk⟩ | h)
          · left
            split
            · exact h
            · exact List.mem_append_left _ h
          · subst hd'
            subst hk
            left
            split
            · rename_i hmem
              exact hmem
            · simp
          · exact Or.inr h
      · rw [yearFold_some_ne hd hy]
        simp only [hd, Option.some.injEq]
        constructor
        · rintro (h | h)
          · exact Or.inl h
          · exact Or.inr (Or.inr h)
        · rintro (h | ⟨d', hd', hy', hx⟩ | h)
          · exact Or.inl h
          · subst hd'
            exact absurd hy' hy
          · exact Or.inr h

theorem foldl_yearFold_bands {y : String} {k : GroupKey} {b : String} :
    ∀ {fs : List String} {yd : YearData},
      b ∈ bandsView (fs.foldl (yearFold y) yd) k ↔
        b ∈ bandsView yd k ∨ ∃ f ∈ fs, ∃ d,
          decode_satellite_filename f = some d ∧ yearOf d = y ∧
            keyOf d = k ∧ b = bandTokenOf d := by
  intro fs
  induction fs with
  | nil => simp
  | cons f fs ih =>
    intro yd
    simp only [List.foldl_cons]
    rw [ih, List.exists_mem_cons_iff]
    cases hd : decode_satellite_filename f with
    | none =>
      rw [yearFold_none hd]
      simp [hd]
    | some d =>
      by_cases hy : yearOf d = y
      · rw [yearFold_some_eq hd hy]
        by_cases hk : keyOf d = k
        · subst hk
          show b ∈ bandsView ⟨_, _, _, _,
            valuesAdd yd.values (keyOf d) (bandTokenOf d)⟩ (keyOf d) ∨ _ ↔ _
          unfold bandsView
          show b ∈ (assocFind
            (valuesAdd yd.values (keyOf d) (bandTokenOf d)) (keyOf d)).getD []
              ∨ _ ↔ _
          rw [valuesAdd_find_eq]
          simp only [Option.getD_some, setAdd_mem, hd, Option.some.injEq, hy]
          constructor
          · rintro ((h | h) | h)
            · exact Or.inl h
            · exact Or.inr (Or.inl ⟨d, rfl, hy, rfl, h⟩)
            · exact Or.inr (Or.inr h)
          · rintro (h | ⟨d', hd', _, hk', hb⟩ | h)
            · exact Or.inl (Or.inl h)
            · subst hd'
              exact Or.inl (Or.inr hb)
            · exact Or.inr h
        · show b ∈ bandsView ⟨_, _, _, _,
            valuesAdd yd.values (keyOf d) (bandTokenOf d)⟩ k ∨ _ ↔ _
          unfold bandsView
          show b ∈ (assocFind
            (valuesAdd yd.values (keyOf d) (bandTokenOf d)) k).getD []
              ∨ _ ↔ _
          rw [valuesAdd_find_ne (fun hh => hk hh.symm)]
          simp only [hd, Option.some.injEq]
          constructor
          · rintro (h | h)
            · exact Or.inl h
            · exact Or.inr (Or.inr h)
          · rintro (h | ⟨d', hd', hy', hk', hb⟩ | h)
            · exact Or.inl h
            · subst hd'
              exact absurd hk' hk
            · exact Or.inr h
      · rw [yearFold_some_ne hd hy]
        simp only [hd, Option.some.injEq]
        constructor
        · rintro (h | h)
          · exact Or.inl h
          · exact Or.inr (Or.inr h)
        · rintro (h | ⟨d', hd', hy', hk', hb⟩ | h)
          · exact Or.inl h
          · subst hd'
            exact absurd hy' hy
          · exact Or.inr h

theorem foldl_yearFold_proj_nodup {proj : YearData → List String}
    {fproj : FilenameComponents → String}
    (hproj : ∀ yd d, proj (addDetails yd d) = setAdd (proj yd) (fproj d))
    {y : String} :
    ∀ {fs : List String} {yd : YearData}, (proj yd).Nodup →
      (proj (fs.foldl (yearFold y) yd)).Nodup := by
  intro fs
  induction fs with
  | nil => exact fun h => h
  | cons f fs ih =>
    intro yd h
    simp only [List.foldl_cons]
    refine ih ?_
    cases hd : decode_satellite_filename f with
    | none =>
      rw [yearFold_none hd]
      exact h
    | some d =>
      by_cases hy : yearOf d = y
      · rw [yearFold_some_eq hd hy, hproj]
        exact setAdd_nodup h
      · rw [yearFold_some_ne hd hy]
        exact h

theorem foldl_yearFold_values_keys_nodup {y : String} :
    ∀ {fs : List String} {yd : YearData},
      (yd.values.map Prod.fst).Nodup →
      ((fs.foldl (yearFold y) yd).values.map Prod.fst).Nodup := by
  intro fs
  induction fs with
  | nil => exact fun h => h
  | cons f fs ih =>
    intro yd h
    simp only [List.foldl_cons]
    refine ih ?_
    cases hd : decode_satellite_filename f with
    | none =>
      rw [yearFold_none hd]
      exact h
    | some d =>
      by_cases hy : yearOf d = y
      · rw [yearFold_some_eq hd hy]
        show ((valuesAdd yd.values (keyOf d) (bandTokenOf d)).map
          Prod.fst).Nodup
        rw [valuesAdd_keys]
        split
        · exact h
        · rename_i hmem
          simp [List.nodup_append, h, hmem]
      · rw [yearFold_some_ne hd hy]
        exact h

theorem foldl_yearFold_bands_nodup {y : String} :
    ∀ {fs : List String} {yd : YearData},
      (∀ k, (bandsView yd k).Nodup) →
      ∀ k, (bandsView (fs.foldl (yearFold y) yd) k).Nodup := by
  intro fs
  induction fs with
  | nil => exact fun h => h
  | cons f fs ih =>
    intro yd h
    simp only [List.foldl_cons]
    refine ih ?_
    intro k
    cases hd : decode_satellite_filename f with
    | none =>
      rw [yearFold_none hd]
      exact h k
    | some d =>
      by_cases hy : yearOf d = y
      · rw [yearFold_some_eq hd hy]
        show ((assocFind (valuesAdd yd.values (keyOf d) (bandTokenOf d))
          k).getD []).Nodup
        by_cases hk : keyOf d = k
        · subst hk
          rw [valuesAdd_find_eq]
          exact setAdd_nodup (h _)
        · rw [valuesAdd_find_ne (fun hh => hk hh.symm)]
          exact h k
      · rw [yearFold_some_ne hd hy]
        exact h k

theorem assocFind_none_iff {κ β : Type} [DecidableEq κ]
    {l : List (κ × β)} {k : κ} :
    assocFind l k = none ↔ k ∉ l.map Prod.fst := by
  induction l with
  | nil => simp [assocFind]
  | cons p rest ih =>
    obtain ⟨k', v⟩ := p
    simp only [assocFind, List.map_cons, List.mem_cons]
    split
    · rename_i h
      subst h
      simp
    · rename_i h
      rw [ih]
      constructor
      · intro hn
        rintro (rfl | hmem)
        · exact h rfl
        · exact hn hmem
      · intro hn hmem
        exact hn (Or.inr hmem)

theorem assocFind_isSome_iff {κ β : Type} [DecidableEq κ]
    {l : List (κ × β)} {k : κ} :
    (∃ v, assocFind l k = some v) ↔ k ∈ l.map Prod.fst := by
  constructor
  · rintro ⟨v, hv⟩
    by_contra hmem
    rw [← assocFind_none_iff] at hmem
    rw [hv] at hmem
    exact Option.noConfusion hmem
  · intro hmem
    cases hf : assocFind l k with
    | none => exact absurd hmem (assocFind_none_iff.mp hf)
    | some v => exact ⟨v, rfl⟩

/-- The accumulator state of `organize_satellite_data_json` on `fs`. -/
def jsonState (fs : List String) : List (String × YearData) :=
  fs.foldl jsonFold []

theorem organize_eq_map_state {fs : List String} :
    organize_satellite_data_json fs =
      (List.insertionSort fstLeR (jsonState fs)).map
        fun p => (p.1, finalizeYear p.2) := rfl

theorem jsonState_keys_nodup {fs : List String} :
    ((jsonState fs).map Prod.fst).Nodup :=
  jsonFold_keys_nodup (by simp)

/-- Membership in the final output: one entry per year key of the state,
carrying the finalized year view. -/
theorem organize_mem_iff {fs : List String} {y : String} {yo : YearOutput} :
    (y, yo) ∈ organize_satellite_data_json fs ↔
      y ∈ (jsonState fs).map Prod.fst ∧
        yo = finalizeYear (yearView (jsonState fs) y) := by
  rw [organize_eq_map_state]
  constructor
  · intro h
    obtain ⟨p, hp, hg⟩ := List.mem_map.mp h
    rw [List.mem_insertionSort] at hp
    rw [Prod.mk.injEq] at hg
    obtain ⟨h1, h2⟩ := hg
    subst h1
    have hfind : assocFind (jsonState fs) p.1 = some p.2 :=
      (assocFind_eq_iff_mem jsonState_keys_nodup).mpr (by
        obtain ⟨a, b⟩ := p
        exact hp)
    refine ⟨List.mem_map_of_mem Prod.fst hp, ?_⟩
    rw [← h2]
    unfold yearView
    rw [hfind]
    rfl
  · rintro ⟨hmem, rfl⟩
    obtain ⟨v, hv⟩ := assocFind_isSome_iff.mpr hmem
    have hpm : (y, v) ∈ jsonState fs :=
      (assocFind_eq_iff_mem jsonState_keys_nodup).mp hv
    refine List.mem_map.mpr ⟨(y, v), (List.mem_insertionSort fstLeR).mpr hpm, ?_⟩
    unfold yearView
    rw [hv]
    rfl

theorem yearView_jsonState {fs : List String} {y : String} :
    yearView (jsonState fs) y = fs.foldl (yearFold y) emptyYearData :=
  yearView_foldl

theorem digit_cases {c : Char} (h : isDigitC c = true) :
    c ∈ ['0', '1', '2', '3', '4', '5', '6', '7', '8', '9'] := by
  rw [isDigitC_iff] at h
  have e0 : ('0' : Char).toNat = 48 := rfl
  have e1 : ('1' : Char).toNat = 49 := rfl
  have e2 : ('2' : Char).toNat = 50 := rfl
  have e3 : ('3' : Char).toNat = 51 := rfl
  have e4 : ('4' : Char).toNat = 52 := rfl
  have e5 : ('5' : Char).toNat = 53 := rfl
  have e6 : ('6' : Char).toNat = 54 := rfl
  have e7 : ('7' : Char).toNat = 55 := rfl
  have e8 : ('8' : Char).toNat = 56 := rfl
  have e9 : ('9' : Char).toNat = 57 := rfl
  simp only [List.mem_cons, List.mem_singleton, charEq_iff_toNat_eq,
    e0, e1, e2, e3, e4, e5, e6, e7, e8, e9]
  omega

/-- The two month characters of a matching date always spell one of the
twelve strings `"01"`–`"12"`. -/
theorem month_string_cases {m1 m2 : Char} (h : monthCheck m1 m2 = true) :
    (⟨[m1, m2]⟩ : String) ∈ allMonths := by
  simp only [monthCheck, Bool.or_eq_true, Bool.and_eq_true, beq_iff_eq,
    bne_iff_ne] at h
  rcases h with ⟨⟨rfl, hd⟩, hne⟩ | ⟨rfl, hm⟩
  · have hmem := digit_cases hd
    simp only [List.mem_cons, List.not_mem_nil, or_false] at hmem
    rcases hmem with rfl | rfl | rfl | rfl | rfl | rfl | rfl | rfl | rfl | rfl
    · exact absurd rfl hne
    all_goals decide
  · rcases hm with (rfl | rfl) | rfl <;> decide

/-- The month slice of a matching date string is one of `"01"`–`"12"`. -/
theorem month_mem_of_dateCheck {l : List Char} (h : dateCheck l = true) :
    (⟨(l.drop 4).take 2⟩ : String) ∈ allMonths := by
  unfold dateCheck at h
  split at h
  · rename_i y1 y2 y3 y4 m1 m2 d1 d2
    simp only [Bool.and_eq_true] at h
    exact month_string_cases h.1.2
  · exact Bool.noConfusion h

theorem finalizeYear_values_mem {yd : YearData} {g : GroupValue} :
    g ∈ (finalizeYear yd).values ↔ ∃ kv ∈ yd.values, g = mkGroup kv := by
  show g ∈ (List.insertionSort valueLeR yd.values).map mkGroup ↔ _
  rw [List.mem_map]
  constructor
  · rintro ⟨kv, hkv, rfl⟩
    exact ⟨kv, (List.mem_insertionSort valueLeR).mp hkv, rfl⟩
  · rintro ⟨kv, hkv, rfl⟩
    exact ⟨kv, (List.mem_insertionSort valueLeR).mpr hkv, rfl⟩

theorem finalizeYear_missing {yd : YearData} :
    (finalizeYear yd).missing_months =
      List.insertionSort strLeR (allMonths.filter fun m =>
        !(finalizeYear yd).values.any fun v =>
          monthOfDate v.acquisition_date == m) := rfl

/-- The one-year accumulator built from scratch for year `y`. -/
def yearAcc (fs : List String) (y : String) : YearData :=
  fs.foldl (yearFold y) emptyYearData

theorem organize_mem_iff_acc {fs : List String} {y : String}
    {yo : YearOutput} :
    (y, yo) ∈ organize_satellite_data_json fs ↔
      y ∈ (jsonState fs).map Prod.fst ∧ yo = finalizeYear (yearAcc fs y) := by
  rw [organize_mem_iff]
  unfold yearAcc
  rw [yearView_jsonState]

theorem yearAcc_satellites_mem {fs : List String} {y x : String} :
    x ∈ (yearAcc fs y).satellites ↔
      ∃ f ∈ fs, ∃ d, decode_satellite_filename f = some d ∧
        yearOf d = y ∧ x = d.satellite := by
  unfold yearAcc
  rw [foldl_yearFold_proj addDetails_satellites]
  simp [emptyYearData]

theorem yearAcc_correction_mem {fs : List String} {y x : String} :
    x ∈ (yearAcc fs y).correction_level ↔
      ∃ f ∈ fs, ∃ d, decode_satellite_filename f = some d ∧
        yearOf d = y ∧ x = d.correction_level := by
  unfold yearAcc
  rw [foldl_yearFold_proj addDetails_correction]
  simp [emptyYearData]

theorem yearAcc_colnum_mem {fs : List String} {y x : String} :
    x ∈ (yearAcc fs y).collection_number ↔
      ∃ f ∈ fs, ∃ d, decode_satellite_filename f = some d ∧
        yearOf d = y ∧ x = d.collection_number := by
  unfold yearAcc
  rw [foldl_yearFold_proj addDetails_colnum]
  simp [emptyYearData]

theorem yearAcc_colcat_mem {fs : List String} {y x : String} :
    x ∈ (yearAcc fs y).collection_category ↔
      ∃ f ∈ fs, ∃ d, decode_satellite_filename f = some d ∧
        yearOf d = y ∧ x = d.collection_category := by
  unfold yearAcc
  rw [foldl_yearFold_proj addDetails_colcat]
  simp [emptyYearData]

theorem yearAcc_keys_mem {fs : List String} {y : String} {k : GroupKey} :
    k ∈ (yearAcc fs y).values.map Prod.fst ↔
      ∃ f ∈ fs, ∃ d, decode_satellite_filename f = some d ∧
        yearOf d = y ∧ keyOf d = k := by
  unfold yearAcc
  rw [foldl_yearFold_values_keys]
  simp [emptyYearData]

theorem yearAcc_bands_mem {fs : List String} {y : String} {k : GroupKey}
    {b : String} :
    b ∈ bandsView (yearAcc fs y) k ↔
      ∃ f ∈ fs, ∃ d, decode_satellite_filename f = some d ∧
        yearOf d = y ∧ keyOf d = k ∧ b = bandTokenOf d := by
  unfold yearAcc
  rw [foldl_yearFold_bands]
  simp [emptyYearData, bandsView, assocFind]

theorem yearAcc_satellites_nodup {fs : List String} {y : String} :
    (yearAcc fs y).satellites.Nodup :=
  foldl_yearFold_proj_nodup addDetails_satellites (by simp [emptyYearData])

theorem yearAcc_correction_nodup {fs : List String} {y : String} :
    (yearAcc fs y).correction_level.Nodup :=
  foldl_yearFold_proj_nodup addDetails_correction (by simp [emptyYearData])

theorem yearAcc_colnum_nodup {fs : List String} {y : String} :
    (yearAcc fs y).collection_number.Nodup :=
  foldl_yearFold_proj_nodup addDetails_colnum (by simp [emptyYearData])

theorem yearAcc_colcat_nodup {fs : List String} {y : String} :
    (yearAcc fs y).collection_category.Nodup :=
  foldl_yearFold_proj_nodup addDetails_colcat (by simp [emptyYearData])

theorem yearAcc_keys_nodup {fs : List String} {y : String} :
    ((yearAcc fs y).values.map Prod.fst).Nodup :=
  foldl_yearFold_values_keys_nodup (by simp [emptyYearData])

theorem yearAcc_bands_nodup {fs : List String} {y : String} (k : GroupKey) :
    (bandsView (yearAcc fs y) k).Nodup :=
  foldl_yearFold_bands_nodup (fun _ => by simp [bandsView, emptyYearData, assocFind]) k

/-- The key fields of an output group. -/
def keyOfG (g : GroupValue) : GroupKey :=
  (g.satellite, g.wrs, g.acquisition_date, g.processing_date)

theorem keyOfG_mkGroup (kv : GroupKey × List String) :
    keyOfG (mkGroup kv) = kv.1 := rfl

theorem finalize_keys_perm {yd : YearData} :
    ((finalizeYear yd).values.map keyOfG).Perm (yd.values.map Prod.fst) := by
  show (((List.insertionSort valueLeR yd.values).map mkGroup).map
    keyOfG).Perm _
  rw [List.map_map]
  have h1 : (List.insertionSort valueLeR yd.values).Perm yd.values :=
    List.perm_insertionSort valueLeR yd.values
  have h2 := h1.map (keyOfG ∘ mkGroup)
  refine h2.trans ?_
  have : keyOfG ∘ mkGroup = Prod.fst := by
    funext kv
    rfl
  rw [this]

/-! ## Claim theorems: the JSON aggregate (C5, C6) -/

/-- C5 (confirmed): within a year of the JSON aggregate there is exactly
one group per distinct `(satellite, wrs, acquisition_date,
processing_date)` tuple decoded for that year (the group keys are
duplicate-free and are exactly the decoded tuples), every group's band
list is duplicate-free and lexicographically sorted and contains exactly
the `{surface}_{band}` tokens decoded for that tuple; concretely, two
filenames differing only in the band token collapse into one group with
both tokens, sorted, with no duplicate even when a filename is supplied
twice. -/
theorem C5_group_uniqueness :
    (∀ (fs : List String) (y : String) (yo : YearOutput),
      (y, yo) ∈ organize_satellite_data_json fs →
        (yo.values.map keyOfG).Nodup ∧
        (∀ k : GroupKey, k ∈ yo.values.map keyOfG ↔
          ∃ f ∈ fs, ∃ d, decode_satellite_filename f = some d ∧
            yearOf d = y ∧ keyOf d = k) ∧
        (∀ g ∈ yo.values, g.bands.Nodup ∧ g.bands.Sorted strLeR ∧
          ∀ b, b ∈ g.bands ↔
            ∃ f ∈ fs, ∃ d, decode_satellite_filename f = some d ∧
              yearOf d = y ∧ keyOf d = keyOfG g ∧ b = bandTokenOf d)) ∧
    organize_satellite_data_json
        ["LC08_L2SP_123045_20200115_20200120_02_T1_SR_B4.TIF",
         "LC08_L2SP_123045_20200115_20200120_02_T1_SR_B3.TIF",
         "LC08_L2SP_123045_20200115_20200120_02_T1_SR_B4.TIF"] =
      [("2020",
        { satellites := ["LC08"]
          correction_level := ["L2SP"]
          collection_number := ["02"]
          collection_category := ["T1"]
          values := [{ satellite := "LC08"
                       wrs := "123045"
                       acquisition_date := "20200115"
                       processing_date := "20200120"
                       bands := ["SR_B3", "SR_B4"] }]
          missing_months := ["02", "03", "04", "05", "06", "07", "08",
            "09", "10", "11", "12"] })] := by
  constructor
  · intro fs y yo hmem
    rw [organize_mem_iff_acc] at hmem
    obtain ⟨hkey, rfl⟩ := hmem
    refine ⟨?_, ?_, ?_⟩
    · exact (finalize_keys_perm).nodup_iff.mpr yearAcc_keys_nodup
    · intro k
      rw [(finalize_keys_perm).mem_iff, yearAcc_keys_mem]
    · intro g hg
      obtain ⟨kv, hkv, rfl⟩ := finalizeYear_values_mem.mp hg
      obtain ⟨k, bs⟩ := kv
      have hbv : bandsView (yearAcc fs y) k = bs := by
        unfold bandsView
        rw [(assocFind_eq_iff_mem yearAcc_keys_nodup).mpr hkv]
        rfl
      refine ⟨?_, ?_, ?_⟩
      · exact ((List.perm_insertionSort strLeR bs).nodup_iff).mpr
          (hbv ▸ yearAcc_bands_nodup k)
      · exact List.sorted_insertionSort strLeR bs
      · intro b
        show b ∈ List.insertionSort strLeR bs ↔ _
        rw [List.mem_insertionSort, keyOfG_mkGroup, ← hbv, yearAcc_bands_mem]
  · decide

/-- Witness for `C5_group_uniqueness` at a concrete batch. -/
theorem C5_group_uniqueness_witness :
    (([{ satellite := "LC08", wrs := "123045",
         acquisition_date := "20200115", processing_date := "20200120",
         bands := ["SR_B3", "SR_B4"] }] : List GroupValue).map
      keyOfG).Nodup :=
  (C5_group_uniqueness.1
    ["LC08_L2SP_123045_20200115_20200120_02_T1_SR_B4.TIF",
     "LC08_L2SP_123045_20200115_20200120_02_T1_SR_B3.TIF",
     "LC08_L2SP_123045_20200115_20200120_02_T1_SR_B4.TIF"]
    "2020"
    { satellites := ["LC08"]
      correction_level := ["L2SP"]
      collection_number := ["02"]
      collection_category := ["T1"]
      values := [{ satellite := "LC08", wrs := "123045",
                   acquisition_date := "20200115",
                   processing_date := "20200120",
                   bands := ["SR_B3", "SR_B4"] }]
      missing_months := ["02", "03", "04", "05", "06", "07", "08", "09",
        "10", "11", "12"] }
    (by decide)).1

/-- C6 (confirmed): for every year of the JSON aggregate, `missing_months`
is the ascending-sorted list of exactly those months of `{"01",...,"12"}`
for which no group of that year has an acquisition date in that month;
every month present among the groups lies in `{"01",...,"12"}`, so the
missing and present months are disjoint and together cover all 12. -/
theorem C6_missing_months :
    ∀ (fs : List String) (y : String) (yo : YearOutput),
      (y, yo) ∈ organize_satellite_data_json fs →
        yo.missing_months.Sorted strLeR ∧
        (∀ m, m ∈ yo.missing_months ↔
          m ∈ allMonths ∧
            ∀ g ∈ yo.values, monthOfDate g.acquisition_date ≠ m) ∧
        (∀ g ∈ yo.values, monthOfDate g.acquisition_date ∈ allMonths) := by
  intro fs y yo hmem
  rw [organize_mem_iff_acc] at hmem
  obtain ⟨hkey, rfl⟩ := hmem
  refine ⟨?_, ?_, ?_⟩
  · rw [finalizeYear_missing]
    exact List.sorted_insertionSort strLeR _
  · intro m
    rw [finalizeYear_missing, List.mem_insertionSort, List.mem_filter]
    simp only [Bool.not_eq_true', List.any_eq_false, beq_eq_false_iff_ne,
      beq_iff_eq, ne_eq]
  · intro g hg
    obtain ⟨kv, hkv, rfl⟩ := finalizeYear_values_mem.mp hg
    obtain ⟨k, bs⟩ := kv
    have hkmem : k ∈ (yearAcc fs y).values.map Prod.fst :=
      List.mem_map_of_mem Prod.fst hkv
    obtain ⟨f, hf, d, hdec, hy, hk⟩ := yearAcc_keys_mem.mp hkmem
    have hwf := (decode_some_shape hdec).1
    have hdc : dateCheck d.acquisition_date.data = true := by
      simp only [wellFormed, Bool.and_eq_true] at hwf
      exact hwf.1.1.1.1.1.2
    show monthOfDate k.2.2.1 ∈ allMonths
    rw [← hk]
    exact month_mem_of_dateCheck hdc

/-- Witness for `C6_missing_months` at a concrete batch. -/
theorem C6_missing_months_witness :
    (["01", "02", "03", "04", "05", "07", "08", "09", "10", "11", "12"] :
      List String).Sorted strLeR :=
  (C6_missing_months
    ["LC08_L2SP_123045_20200615_20200620_02_T1_ST_B10.TIF"] "2020"
    { satellites := ["LC08"]
      correction_level := ["L2SP"]
      collection_number := ["02"]
      collection_category := ["T1"]
      values := [{ satellite := "LC08", wrs := "123045",
                   acquisition_date := "20200615",
                   processing_date := "20200620",
                   bands := ["ST_B10"] }]
      missing_months := ["01", "02", "03", "04", "05", "07", "08", "09",
        "10", "11", "12"] }
    (by decide)).1

/-! ## Non-emptiness and safety of path synthesis (C10) -/

theorem length_filter_lt_of_mem {α : Type} {l : List α} {p : α → Bool}
    {x : α} (hx : x ∈ l) (hpx : p x = false) :
    (l.filter p).length < l.length := by
  induction l with
  | nil => exact absurd hx (List.not_mem_nil x)
  | cons a as ih =>
    rcases hx with _ | hx
    · simp only [List.filter_cons, hpx]
      calc (as.filter p).length ≤ as.length := List.length_filter_le p as
        _ < as.length + 1 := Nat.lt_succ_self _
    · rename_i hxx
      simp only [List.filter_cons]
      split
      · simp only [List.length_cons]
        exact Nat.succ_lt_succ (ih hxx)
      · calc (as.filter p).length ≤ as.length := List.length_filter_le p as
          _ < as.length + 1 := Nat.lt_succ_self _

theorem head_some_of_ne_nil {α : Type} {l : List α} (h : l ≠ []) :
    ∃ a, l.head? = some a := by
  cases l
  · exact absurd rfl h
  · exact ⟨_, rfl⟩

theorem createStep_some {dir : String} {ps : List String}
    {p : String × YearOutput} {cl cn cc : String}
    (h1 : p.2.correction_level.head? = some cl)
    (h2 : p.2.collection_number.head? = some cn)
    (h3 : p.2.collection_category.head? = some cc) :
    createStep dir (some ps) p =
      some (ps ++ p.2.values.flatMap (groupPaths dir cl cn cc)) := by
  simp [createStep, h1, h2, h3]

theorem create_foldl_some {dir : String} :
    ∀ {data : List (String × YearOutput)},
      (∀ p ∈ data, p.2.correction_level ≠ [] ∧ p.2.collection_number ≠ [] ∧
        p.2.collection_category ≠ []) →
      ∀ ps0 : List String,
        ∃ ps, data.foldl (createStep dir) (some ps0) = some ps := by
  intro data
  induction data with
  | nil => exact fun _ ps0 => ⟨ps0, rfl⟩
  | cons p rest ih =>
    intro h ps0
    obtain ⟨h1, h2, h3⟩ := h p (List.mem_cons_self _ _)
    obtain ⟨cl, hcl⟩ := head_some_of_ne_nil h1
    obtain ⟨cn, hcn⟩ := head_some_of_ne_nil h2
    obtain ⟨cc, hcc⟩ := head_some_of_ne_nil h3
    simp only [List.foldl_cons, createStep_some hcl hcn hcc]
    exact ih (fun q hq => h q (List.mem_cons_of_mem _ hq)) _

theorem jsonState_keys_mem {fs : List String} {y : String} :
    y ∈ (jsonState fs).map Prod.fst ↔
      ∃ f ∈ fs, ∃ d, decode_satellite_filename f = some d ∧ yearOf d = y := by
  unfold jsonState
  rw [jsonFold_keys_mem]
  simp

/-- C10 (confirmed): every year entry of the JSON aggregate comes from at
least one decoded filename, so all five of its collection lists are
non-empty, every group's band list is non-empty and `missing_months` has
at most 11 entries; consequently `create_satellite_images_paths` never
hits the out-of-bounds first-element access (modelled as `none`) on an
aggregate produced by `organize_satellite_data_json`. -/
theorem C10_nonempty_and_safe :
    ∀ (fs : List String) (image_directory : String),
      (∀ p ∈ organize_satellite_data_json fs,
        p.2.satellites ≠ [] ∧ p.2.correction_level ≠ [] ∧
        p.2.collection_number ≠ [] ∧ p.2.collection_category ≠ [] ∧
        p.2.values ≠ [] ∧ (∀ g ∈ p.2.values, g.bands ≠ []) ∧
        p.2.missing_months.length ≤ 11) ∧
      ∃ ps, create_satellite_images_paths (organize_satellite_data_json fs)
        image_directory = some ps := by
  intro fs dir
  have hmain : ∀ p ∈ organize_satellite_data_json fs,
      p.2.satellites ≠ [] ∧ p.2.correction_level ≠ [] ∧
      p.2.collection_number ≠ [] ∧ p.2.collection_category ≠ [] ∧
      p.2.values ≠ [] ∧ (∀ g ∈ p.2.values, g.bands ≠ []) ∧
      p.2.missing_months.length ≤ 11 := by
    rintro ⟨y, yo⟩ hp
    rw [organize_mem_iff_acc] at hp
    obtain ⟨hkey, rfl⟩ := hp
    obtain ⟨f, hf, d, hdec, hy⟩ := jsonState_keys_mem.mp hkey
    have hsat : d.satellite ∈ (yearAcc fs y).satellites :=
      yearAcc_satellites_mem.mpr ⟨f, hf, d, hdec, hy, rfl⟩
    have hcorr : d.correction_level ∈ (yearAcc fs y).correction_level :=
      yearAcc_correction_mem.mpr ⟨f, hf, d, hdec, hy, rfl⟩
    have hcn : d.collection_number ∈ (yearAcc fs y).collection_number :=
      yearAcc_colnum_mem.mpr ⟨f, hf, d, hdec, hy, rfl⟩
    have hcc : d.collection_category ∈ (yearAcc fs y).collection_category :=
      yearAcc_colcat_mem.mpr ⟨f, hf, d, hdec, hy, rfl⟩
    have hkmem : keyOf d ∈ (yearAcc fs y).values.map Prod.fst :=
      yearAcc_keys_mem.mpr ⟨f, hf, d, hdec, hy, rfl⟩
    obtain ⟨kv0, hkv0, hfst0⟩ := List.mem_map.mp hkmem
    have hg0 : mkGroup kv0 ∈ (finalizeYear (yearAcc fs y)).values :=
      finalizeYear_values_mem.mpr ⟨kv0, hkv0, rfl⟩
    have hdc : dateCheck d.acquisition_date.data = true := by
      have hwf := (decode_some_shape hdec).1
      simp only [wellFormed, Bool.and_eq_true] at hwf
      exact hwf.1.1.1.1.1.2
    refine ⟨List.ne_nil_of_mem hsat, List.ne_nil_of_mem hcorr,
      List.ne_nil_of_mem hcn, List.ne_nil_of_mem hcc,
      List.ne_nil_of_mem hg0, ?_, ?_⟩
    · intro g hg
      obtain ⟨kv, hkv, rfl⟩ := finalizeYear_values_mem.mp hg
      obtain ⟨k, bs⟩ := kv
      have hkm : k ∈ (yearAcc fs y).values.map Prod.fst :=
        List.mem_map_of_mem Prod.fst hkv
      obtain ⟨f', hf', d', hdec', hy', hk'⟩ := yearAcc_keys_mem.mp hkm
      have hbv : bandsView (yearAcc fs y) k = bs := by
        unfold bandsView
        rw [(assocFind_eq_iff_mem yearAcc_keys_nodup).mpr hkv]
        rfl
      have hb : bandTokenOf d' ∈ bs := by
        rw [← hbv]
        exact yearAcc_bands_mem.mpr ⟨f', hf', d', hdec', hy', hk', rfl⟩
      have : bandTokenOf d' ∈ (mkGroup (k, bs)).bands := by
        show bandTokenOf d' ∈ List.insertionSort strLeR bs
        rw [List.mem_insertionSort]
        exact hb
      exact List.ne_nil_of_mem this
    · have hm0 : monthOfDate d.acquisition_date ∈ allMonths :=
        month_mem_of_dateCheck hdc
      have hany : ((finalizeYear (yearAcc fs y)).values.any fun v =>
          monthOfDate v.acquisition_date ==
            monthOfDate d.acquisition_date) = true := by
        rw [List.any_eq_true]
        refine ⟨mkGroup kv0, hg0, ?_⟩
        have : (mkGroup kv0).acquisition_date = d.acquisition_date := by
          show kv0.1.2.2.1 = d.acquisition_date
          rw [hfst0]
          rfl
        rw [this]
        exact beq_self_eq_true _
      have hlen : (finalizeYear (yearAcc fs y)).missing_months.length =
          ((allMonths.filter fun m =>
            !(finalizeYear (yearAcc fs y)).values.any fun v =>
              monthOfDate v.acquisition_date == m).length) := by
        rw [finalizeYear_missing]
        exact (List.perm_insertionSort strLeR _).length_eq
      rw [hlen]
      have hlt : ((allMonths.filter fun m =>
          !(finalizeYear (yearAcc fs y)).values.any fun v =>
            monthOfDate v.acquisition_date == m).length) <
          allMonths.length := by
        refine length_filter_lt_of_mem hm0 ?_
        rw [Bool.not_eq_false']
        exact hany
      have h12 : allMonths.length = 12 := rfl
      omega
  refine ⟨hmain, ?_⟩
  apply create_foldl_some
  intro p hp
  obtain ⟨_, h2, h3, h4, _⟩ := hmain p hp
  exact ⟨h2, h3, h4⟩

/-- Witness for `C10_nonempty_and_safe` at a concrete batch. -/
theorem C10_nonempty_and_safe_witness :
    ∃ ps, create_satellite_images_paths
      (organize_satellite_data_json
        ["LC08_L2SP_123045_20200115_20200120_02_T1_SR_B4.TIF"]) "d" =
      some ps :=
  (C10_nonempty_and_safe
    ["LC08_L2SP_123045_20200115_20200120_02_T1_SR_B4.TIF"] "d").2

/-! ## Order sensitivity and determinism (C1) -/

theorem organize_keys_eq {fs : List String} :
    (organize_satellite_data_json fs).map Prod.fst =
      (List.insertionSort fstLeR (jsonState fs)).map Prod.fst := by
  rw [organize_eq_map_state, List.map_map]
  rfl

theorem organize_keys_sorted {fs : List String} :
    ((organize_satellite_data_json fs).map Prod.fst).Sorted strLeR := by
  rw [organize_keys_eq]
  have h := List.sorted_insertionSort fstLeR (jsonState fs)
  exact List.Pairwise.map Prod.fst (fun a b hab => hab) h

theorem organize_keys_nodup {fs : List String} :
    ((organize_satellite_data_json fs).map Prod.fst).Nodup := by
  rw [organize_keys_eq]
  exact ((List.perm_insertionSort fstLeR (jsonState fs)).map
    Prod.fst).nodup_iff.mpr jsonState_keys_nodup

theorem organize_keys_mem {fs : List String} {y : String} :
    y ∈ (organize_satellite_data_json fs).map Prod.fst ↔
      ∃ f ∈ fs, ∃ d, decode_satellite_filename f = some d ∧
        yearOf d = y := by
  rw [organize_keys_eq, ← jsonState_keys_mem]
  exact ((List.perm_insertionSort fstLeR (jsonState fs)).map
    Prod.fst).mem_iff

/-- C1 (counterexample): two filenames share the acquisition date (the only
sort key of the `values` groups) but differ in satellite; swapping them
permutes the input yet changes the output — the `satellites` list (emitted
as `list(set)` without sorting, modelled in first-insertion order) and the
order of the two groups (Python's stable sort keeps dict insertion order
on equal acquisition dates) both follow the input order. -/
theorem C1_counterexample :
    (["LC09_L2SP_123045_20200115_20200120_02_T1_SR_B4.TIF",
      "LC08_L2SP_123045_20200115_20200120_02_T1_SR_B4.TIF"] :
        List String).Perm
      ["LC08_L2SP_123045_20200115_20200120_02_T1_SR_B4.TIF",
       "LC09_L2SP_123045_20200115_20200120_02_T1_SR_B4.TIF"] ∧
    organize_satellite_data_json
        ["LC08_L2SP_123045_20200115_20200120_02_T1_SR_B4.TIF",
         "LC09_L2SP_123045_20200115_20200120_02_T1_SR_B4.TIF"] ≠
      organize_satellite_data_json
        ["LC09_L2SP_123045_20200115_20200120_02_T1_SR_B4.TIF",
         "LC08_L2SP_123045_20200115_20200120_02_T1_SR_B4.TIF"] := by
  constructor
  · decide
  · decide

/-- C1 (amended): permuting the input leaves the year-key sequence and
every year's `missing_months` byte-identical, and leaves the four
set-accumulated lists and the `values` group list identical up to
permutation (each group's sorted `bands` list is byte-identical).  Full
byte-identity fails only for the unsorted `list(set)` emissions and for
the order of groups sharing an acquisition date. -/
theorem C1_amended_determinism :
    ∀ (fs fs' : List String), fs.Perm fs' →
      (organize_satellite_data_json fs).map Prod.fst =
        (organize_satellite_data_json fs').map Prod.fst ∧
      ∀ y yo yo', (y, yo) ∈ organize_satellite_data_json fs →
        (y, yo') ∈ organize_satellite_data_json fs' →
          yo.satellites.Perm yo'.satellites ∧
          yo.correction_level.Perm yo'.correction_level ∧
          yo.collection_number.Perm yo'.collection_number ∧
          yo.collection_category.Perm yo'.collection_category ∧
          yo.values.Perm yo'.values ∧
          yo.missing_months = yo'.missing_months := by
  intro fs fs' hperm
  have hbex : ∀ {P : String → Prop}, (∃ f ∈ fs, P f) ↔ ∃ f ∈ fs', P f :=
    fun {P} => ⟨fun ⟨f, hf, hp⟩ => ⟨f, hperm.mem_iff.mp hf, hp⟩,
      fun ⟨f, hf, hp⟩ => ⟨f, hperm.mem_iff.mpr hf, hp⟩⟩
  constructor
  · refine List.eq_of_perm_of_sorted ?_ organize_keys_sorted
      organize_keys_sorted
    refine (List.perm_ext_iff_of_nodup organize_keys_nodup
      organize_keys_nodup).mpr ?_
    intro y
    rw [organize_keys_mem, organize_keys_mem]
    exact hbex
  · intro y yo yo' hyo hyo'
    rw [organize_mem_iff_acc] at hyo hyo'
    obtain ⟨_, rfl⟩ := hyo
    obtain ⟨_, rfl⟩ := hyo'
    have hsetperm : ∀ (proj : YearData → List String)
        (fproj : FilenameComponents → String),
        (∀ yd d, proj (addDetails yd d) = setAdd (proj yd) (fproj d)) →
        proj emptyYearData = [] →
        (proj (yearAcc fs y)).Perm (proj (yearAcc fs' y)) := by
      intro proj fproj hproj hbase
      refine (List.perm_ext_iff_of_nodup
        (foldl_yearFold_proj_nodup hproj (by rw [hbase]; exact List.nodup_nil))
        (foldl_yearFold_proj_nodup hproj
          (by rw [hbase]; exact List.nodup_nil))).mpr ?_
      intro x
      show x ∈ proj (yearAcc fs y) ↔ x ∈ proj (yearAcc fs' y)
      unfold yearAcc
      rw [foldl_yearFold_proj hproj, foldl_yearFold_proj hproj, hbase]
      simp only [List.not_mem_nil, false_or]
      exact hbex
    have hbands : ∀ k : GroupKey,
        bandsView (yearAcc fs y) k = [] ∧ bandsView (yearAcc fs' y) k = [] ∨
        (List.insertionSort strLeR (bandsView (yearAcc fs y) k) =
          List.insertionSort strLeR (bandsView (yearAcc fs' y) k)) := by
      intro k
      right
      refine List.eq_of_perm_of_sorted ?_
        (List.sorted_insertionSort strLeR _)
        (List.sorted_insertionSort strLeR _)
      refine ((List.perm_insertionSort strLeR _).trans ?_).trans
        (List.perm_insertionSort strLeR _).symm
      refine (List.perm_ext_iff_of_nodup (yearAcc_bands_nodup k)
        (yearAcc_bands_nodup k)).mpr ?_
      intro b
      rw [yearAcc_bands_mem, yearAcc_bands_mem]
      exact hbex
    have hkeys : ∀ k : GroupKey,
        k ∈ (yearAcc fs y).values.map Prod.fst ↔
          k ∈ (yearAcc fs' y).values.map Prod.fst := by
      intro k
      rw [yearAcc_keys_mem, yearAcc_keys_mem]
      exact hbex
    have hvmem : ∀ g : GroupValue,
        g ∈ (finalizeYear (yearAcc fs y)).values ↔
          g ∈ (finalizeYear (yearAcc fs' y)).values := by
      intro g
      rw [finalizeYear_values_mem, finalizeYear_values_mem]
      constructor
      · rintro ⟨⟨k, bs⟩, hkv, rfl⟩
        have hk' : k ∈ (yearAcc fs' y).values.map Prod.fst :=
          (hkeys k).mp (List.mem_map_of_mem Prod.fst hkv)
        obtain ⟨⟨k2, bs'⟩, hkv', hfst⟩ := List.mem_map.mp hk'
        simp only at hfst
        have hfst' : k = k2 := hfst.symm
        subst hfst'
        refine ⟨(k, bs'), hkv', ?_⟩
        have hbv : bandsView (yearAcc fs y) k = bs := by
          unfold bandsView
          rw [(assocFind_eq_iff_mem yearAcc_keys_nodup).mpr hkv]
          rfl
        have hbv' : bandsView (yearAcc fs' y) k = bs' := by
          unfold bandsView
          rw [(assocFind_eq_iff_mem yearAcc_keys_nodup).mpr hkv']
          rfl
        rcases hbands k with ⟨h1, h2⟩ | heq
        · rw [hbv] at h1
          rw [hbv'] at h2
          subst h1
          subst h2
          rfl
        · rw [hbv, hbv'] at heq
          show mkGroup (k, bs) = mkGroup (k, bs')
          unfold mkGroup
          simp only [heq]
      · rintro ⟨⟨k, bs'⟩, hkv', rfl⟩
        have hk : k ∈ (yearAcc fs y).values.map Prod.fst :=
          (hkeys k).mpr (List.mem_map_of_mem Prod.fst hkv')
        obtain ⟨⟨k2, bs⟩, hkv, hfst⟩ := List.mem_map.mp hk
        simp only at hfst
        have hfst' : k = k2 := hfst.symm
        subst hfst'
        refine ⟨(k, bs), hkv, ?_⟩
        have hbv : bandsView (yearAcc fs y) k = bs := by
          unfold bandsView
          rw [(assocFind_eq_iff_mem yearAcc_keys_nodup).mpr hkv]
          rfl
        have hbv' : bandsView (yearAcc fs' y) k = bs' := by
          unfold bandsView
          rw [(assocFind_eq_iff_mem yearAcc_keys_nodup).mpr hkv']
          rfl
        rcases hbands k with ⟨h1, h2⟩ | heq
        · rw [hbv] at h1
          rw [hbv'] at h2
          subst h1
          subst h2
          rfl
        · rw [hbv, hbv'] at heq
          show mkGroup (k, bs') = mkGroup (k, bs)
          unfold mkGroup
          simp only [heq]
    have hvnodup : ∀ fsx : List String,
        (finalizeYear (yearAcc fsx y)).values.Nodup := by
      intro fsx
      have hknodup : ((finalizeYear (yearAcc fsx y)).values.map
          keyOfG).Nodup :=
        (finalize_keys_perm).nodup_iff.mpr yearAcc_keys_nodup
      exact hknodup.of_map keyOfG
    have hvperm : (finalizeYear (yearAcc fs y)).values.Perm
        (finalizeYear (yearAcc fs' y)).values :=
      (List.perm_ext_iff_of_nodup (hvnodup fs) (hvnodup fs')).mpr hvmem
    refine ⟨hsetperm _ _ addDetails_satellites rfl,
      hsetperm _ _ addDetails_correction rfl,
      hsetperm _ _ addDetails_colnum rfl,
      hsetperm _ _ addDetails_colcat rfl,
      hvperm, ?_⟩
    rw [finalizeYear_missing, finalizeYear_missing]
    have hfilter : (allMonths.filter fun m =>
        !(finalizeYear (yearAcc fs y)).values.any fun v =>
          monthOfDate v.acquisition_date == m) =
        allMonths.filter fun m =>
          !(finalizeYear (yearAcc fs' y)).values.any fun v =>
            monthOfDate v.acquisition_date == m := by
      refine List.filter_congr ?_
      intro m _
      have : ((finalizeYear (yearAcc fs y)).values.any fun v =>
          monthOfDate v.acquisition_date == m) =
          ((finalizeYear (yearAcc fs' y)).values.any fun v =>
            monthOfDate v.acquisition_date == m) := by
        rw [Bool.eq_iff_iff, List.any_eq_true, List.any_eq_true]
        constructor
        · rintro ⟨g, hg, hgm⟩
          exact ⟨g, (hvmem g).mp hg, hgm⟩
        · rintro ⟨g, hg, hgm⟩
          exact ⟨g, (hvmem g).mpr hg, hgm⟩
      rw [this]
    rw [hfilter]

/-- Witness for `C1_amended_determinism` at a concrete permutation. -/
theorem C1_amended_determinism_witness :
    (organize_satellite_data_json
        ["LC08_L2SP_123045_20200115_20200120_02_T1_SR_B4.TIF",
         "LC09_L2SP_123045_20200115_20200120_02_T1_SR_B4.TIF"]).map
      Prod.fst =
    (organize_satellite_data_json
        ["LC09_L2SP_123045_20200115_20200120_02_T1_SR_B4.TIF",
         "LC08_L2SP_123045_20200115_20200120_02_T1_SR_B4.TIF"]).map
      Prod.fst :=
  (C1_amended_determinism
    ["LC08_L2SP_123045_20200115_20200120_02_T1_SR_B4.TIF",
     "LC09_L2SP_123045_20200115_20200120_02_T1_SR_B4.TIF"]
    ["LC09_L2SP_123045_20200115_20200120_02_T1_SR_B4.TIF",
     "LC08_L2SP_123045_20200115_20200120_02_T1_SR_B4.TIF"]
    (by decide)).1

/-! ## The text report's block structure (C8) -/

theorem strFoldl_append :
    ∀ (xs : List String) (s : String),
      xs.foldl (· ++ ·) s = s ++ xs.foldl (· ++ ·) "" := by
  intro xs
  induction xs with
  | nil => exact fun s => (String.append_empty s).symm
  | cons x xs ih =>
    intro s
    simp only [List.foldl_cons]
    rw [ih (s ++ x), ih ("" ++ x)]
    rw [show ("" ++ x : String) = x from rfl, String.append_assoc]

theorem strJoin_cons (x : String) (xs : List String) :
    String.join (x :: xs) = x ++ String.join xs := by
  show (x :: xs).foldl (· ++ ·) "" = x ++ xs.foldl (· ++ ·) ""
  rw [List.foldl_cons]
  rw [strFoldl_append xs ("" ++ x)]
  rw [show ("" ++ x : String) = x from rfl]

theorem assocUpdate_keys {β : Type} {dflt : β} {f : β → β}
    {l : List (String × β)} {k : String} :
    (assocUpdate dflt f l k).map Prod.fst =
      if k ∈ l.map Prod.fst then l.map Prod.fst
      else l.map Prod.fst ++ [k] := by
  induction l with
  | nil => simp [assocUpdate]
  | cons p rest ih =>
    obtain ⟨k', v⟩ := p
    unfold assocUpdate
    split
    · rename_i h
      subst h
      simp
    · rename_i h
      simp only [List.map_cons, List.mem_cons]
      rw [ih]
      split
      · rename_i hmem
        rw [if_pos (Or.inr hmem)]
      · rename_i hmem
        rw [if_neg (by
          rintro (hh | hh)
          · exact h hh.symm
          · exact hmem hh)]
        simp

/-- The nested accumulator of the text report on `fs`. -/
def txtState (fs : List String) : TxtData := fs.foldl txtFold []

theorem txtFold_keys_mem {fs : List String} {sd : TxtData} {y : String} :
    y ∈ (fs.foldl txtFold sd).map Prod.fst ↔
      y ∈ sd.map Prod.fst ∨
        ∃ f ∈ fs, ∃ d, decode_satellite_filename f = some d ∧
          yearOf d = y := by
  induction fs generalizing sd with
  | nil => simp
  | cons f fs ih =>
    simp only [List.foldl_cons]
    rw [ih, List.exists_mem_cons_iff]
    unfold txtFold
    cases hd : decode_satellite_filename f with
    | none =>
      simp [hd]
    | some d =>
      rw [assocUpdate_keys]
      simp only [hd, Option.some.injEq]
      constructor
      · rintro (h | h)
        · split at h
          · exact Or.inl h
          · rcases List.mem_append.mp h with h | h
            · exact Or.inl h
            · refine Or.inr (Or.inl ⟨d, rfl, ?_⟩)
              have : y = yearOf d := by simpa using h
              exact this.symm
        · exact Or.inr (Or.inr h)
      · rintro (h | ⟨d', hd', hy⟩ | h)
        · left
          split
          · exact h
          · exact List.mem_append_left _ h
        · subst hd'
          subst hy
          left
          split
          · rename_i hmem
            exact hmem
          · simp
        · exact Or.inr h

theorem txtState_keys_mem {fs : List String} {y : String} :
    y ∈ (txtState fs).map Prod.fst ↔
      ∃ f ∈ fs, ∃ d, decode_satellite_filename f = some d ∧
        yearOf d = y := by
  unfold txtState
  rw [txtFold_keys_mem]
  simp

theorem txtState_keys_nodup {fs : List String} :
    ((txtState fs).map Prod.fst).Nodup := by
  unfold txtState
  have h : (([] : TxtData).map Prod.fst).Nodup := by simp
  generalize ([] : TxtData) = sd at h ⊢
  induction fs generalizing sd with
  | nil => exact h
  | cons f fs ih =>
    simp only [List.foldl_cons]
    refine ih _ ?_
    unfold txtFold
    cases hd : decode_satellite_filename f with
    | none => exact h
    | some d =>
      rw [assocUpdate_keys]
      split
      · exact h
      · rename_i hmem
        simp [List.nodup_append, h, hmem]

/-- Year blocks joined with the horizontal rule between consecutive blocks
and no rule after the final block. -/
def joinBlocks (b : String → String) : List String → String
  | [] => ""
  | [y] => b y
  | y :: y2 :: rest => b y ++ hrRule ++ joinBlocks b (y2 :: rest)

theorem join_rule (b : String → String) :
    ∀ (ys : List String), ys.Nodup →
      String.join (ys.map fun y =>
        b y ++ if some y ≠ ys.getLast? then hrRule else "") =
        joinBlocks b ys := by
  intro ys
  induction ys with
  | nil => intro _; rfl
  | cons y tail ih =>
    intro hnd
    simp only [List.nodup_cons] at hnd
    obtain ⟨hy, htail⟩ := hnd
    cases tail with
    | nil =>
      show String.join [b y ++ if some y ≠ some y then hrRule else ""] = b y
      rw [if_neg (by simp)]
      show ("" : String) ++ (b y ++ "") = b y
      rw [show ∀ s : String, ("" : String) ++ s = s from fun _ => rfl]
      exact String.append_empty (b y)
    | cons y2 rest =>
      rw [List.map_cons, strJoin_cons]
      have hlast : (y :: y2 :: rest).getLast? = (y2 :: rest).getLast? := rfl
      have hne : (some y ≠ (y :: y2 :: rest).getLast?) := by
        rw [hlast]
        intro heq
        have hmem : y ∈ y2 :: rest :=
          List.mem_of_mem_getLast? heq.symm
        exact hy hmem
      rw [if_pos hne]
      have hmapeq : ((y2 :: rest).map fun y' =>
          b y' ++ if some y' ≠ (y :: y2 :: rest).getLast? then hrRule
            else "") =
          ((y2 :: rest).map fun y' =>
            b y' ++ if some y' ≠ (y2 :: rest).getLast? then hrRule
              else "") := by
        simp only [hlast]
      rw [hmapeq, ih htail]
      rfl

set_option maxRecDepth 4000 in
/-- C8 (confirmed): the text report is the fixed header followed by one
block per year — the years being exactly the decoded acquisition years, in
ascending order with no repetition — with the horizontal rule between
consecutive blocks and none after the final one (`joinBlocks`); each block
(`renderYearBlock`) carries the `Missing Months:` line only when the gap
set is non-empty, then the months present in ascending order, each with
its `(band) - file1, file2, ...` lines in ascending band order.  The cited
example (2020 months 01 and 06, 2021 month 03) renders exactly as shown. -/
theorem C8_report_format :
    (∀ fs : List String,
      organize_satellite_data_txt fs =
        reportHeader ++
          joinBlocks
            (fun y => renderYearBlock y (lookupD (txtState fs) y []))
            (List.insertionSort strLeR ((txtState fs).map Prod.fst)) ∧
      (List.insertionSort strLeR ((txtState fs).map Prod.fst)).Sorted
        strLeR ∧
      (List.insertionSort strLeR ((txtState fs).map Prod.fst)).Nodup ∧
      (∀ y, y ∈ List.insertionSort strLeR ((txtState fs).map Prod.fst) ↔
        ∃ f ∈ fs, ∃ d, decode_satellite_filename f = some d ∧
          yearOf d = y)) ∧
    organize_satellite_data_txt
        ["LC08_L2SP_123045_20200115_20200120_02_T1_SR_B4.TIF",
         "LC08_L2SP_123045_20200615_20200620_02_T1_ST_B10.TIF",
         "LC08_L2SP_123045_20210315_20210320_02_T1_SR_B4.TIF"] =
      "Satellite Image Metadata Report\n\nThis report provides information about satellite image files in the specified directory.\n\n\n\n**2020**\nMissing Months: 02, 03, 04, 05, 07, 08, 09, 10, 11, 12\n\n01\n(B4) - LC08_L2SP_123045_20200115_20200120_02_T1_SR_B4.TIF\n\n06\n(B10) - LC08_L2SP_123045_20200615_20200620_02_T1_ST_B10.TIF\n\n---------------------------------------------------------\n\n**2021**\nMissing Months: 01, 02, 04, 05, 06, 07, 08, 09, 10, 11, 12\n\n03\n(B4) - LC08_L2SP_123045_20210315_20210320_02_T1_SR_B4.TIF\n\n" := by
  constructor
  · intro fs
    have hnodup : (List.insertionSort strLeR
        ((txtState fs).map Prod.fst)).Nodup :=
      ((List.perm_insertionSort strLeR _).nodup_iff).mpr txtState_keys_nodup
    refine ⟨?_, List.sorted_insertionSort strLeR _, hnodup, ?_⟩
    · show reportHeader ++ _ = reportHeader ++ _
      exact congrArg (reportHeader ++ ·)
        (join_rule _ _ hnodup)
    · intro y
      rw [(List.mem_insertionSort strLeR), txtState_keys_mem]
  · decide

/-! ## Round-trip of path synthesis (C4) -/

/-- The filename rebuilt by `create_satellite_images_paths` for one band of
one group, joined with the directory. -/
def rebuildPath (dir cl cn cc : String) (g : GroupValue) (band : String) :
    String :=
  pathJoin dir (g.satellite ++ "_" ++ cl ++ "_" ++ g.wrs ++ "_" ++
    g.acquisition_date ++ "_" ++ g.processing_date ++ "_" ++ cn ++ "_" ++
    cc ++ "_" ++ band ++ "." ++ ORIGINAL_DATASET_IMAGE_EXTENSION)

theorem groupPaths_eq_map {dir cl cn cc : String} {g : GroupValue} :
    groupPaths dir cl cn cc g = g.bands.map (rebuildPath dir cl cn cc g) :=
  rfl

/-- Rebuilding the fields of a decoded record in grammar order, with the
`{surface}_{band}` token in the band slot and the `TIF` extension after a
dot, gives back exactly the canonical rendering. -/
theorem rebuild_eq_render (d : FilenameComponents) {cl cn cc : String}
    (hcl : cl = d.correction_level) (hcn : cn = d.collection_number)
    (hcc : cc = d.collection_category) :
    d.satellite ++ "_" ++ cl ++ "_" ++ d.wrs ++ "_" ++
      d.acquisition_date ++ "_" ++ d.processing_date ++ "_" ++ cn ++ "_" ++
      cc ++ "_" ++ bandTokenOf d ++ "." ++ ORIGINAL_DATASET_IMAGE_EXTENSION =
      renderFilename d := by
  subst hcl hcn hcc
  apply String.ext
  simp [renderFilename, bandTokenOf, ORIGINAL_DATASET_IMAGE_EXTENSION,
    String.data_append, List.append_assoc]

theorem pathJoin_inj {dir f f' : String} (h : pathJoin dir f = pathJoin dir f') :
    f = f' := by
  unfold pathJoin at h
  apply String.ext
  have hd : (dir ++ "/" ++ f).data = (dir ++ "/" ++ f').data := by rw [h]
  simp only [String.data_append] at hd
  exact List.append_cancel_left hd

/-- Decoding is a retraction of rendering: if `f` is the rendering of a
well-formed record, any successful decode of `f` returns that record. -/
theorem decode_unique {f : String} {d d' : FilenameComponents}
    (hwf : wellFormed d = true) (hf : f = renderFilename d)
    (hdec : decode_satellite_filename f = some d') : d' = d := by
  subst hf
  rw [decode_render hwf] at hdec
  injection hdec with h
  exact h.symm

theorem singleton_headD {l : List String} {x : String}
    (hlen : l.length = 1) (hx : x ∈ l) : l.headD "" = x := by
  obtain ⟨a, rfl⟩ := List.length_eq_one.mp hlen
  simp only [List.mem_singleton] at hx
  subst hx
  rfl

theorem headD_head?_of_ne_nil {l : List String} (h : l ≠ []) :
    l.head? = some (l.headD "") := by
  cases l
  · exact absurd rfl h
  · rfl

/-- The explicit output of the `create` fold when every year has the three
non-empty lists: the accumulated prefix followed by one path per band per
group per year, built with each year's first-element selections. -/
theorem create_foldl_explicit (dir : String) :
    ∀ {data : List (String × YearOutput)},
      (∀ p ∈ data, p.2.correction_level ≠ [] ∧ p.2.collection_number ≠ [] ∧
        p.2.collection_category ≠ []) →
      ∀ ps0 : List String,
      data.foldl (createStep dir) (some ps0) =
        some (ps0 ++ data.flatMap fun p =>
          p.2.values.flatMap
            (groupPaths dir (p.2.correction_level.headD "")
              (p.2.collection_number.headD "")
              (p.2.collection_category.headD ""))) := by
  intro data
  induction data with
  | nil =>
    intro _ ps0
    simp
  | cons p rest ih =>
    intro h ps0
    obtain ⟨h1, h2, h3⟩ := h p (List.mem_cons_self _ _)
    rw [List.foldl_cons,
      createStep_some (headD_head?_of_ne_nil h1) (headD_head?_of_ne_nil h2)
        (headD_head?_of_ne_nil h3),
      ih (fun q hq => h q (List.mem_cons_of_mem _ hq))]
    rw [List.flatMap_cons, List.append_assoc]

/-- Every path emitted for a band of a group of a year of the aggregate is
the directory-joined original filename of a decoded input file whose year,
group key and band token match; the rebuilt path equals that joined
filename. -/
theorem band_source {fs : List String} {dir : String}
    (hwf : ∀ f ∈ fs, ∃ d, wellFormed d = true ∧ f = renderFilename d)
    (hsing : ∀ p ∈ organize_satellite_data_json fs,
      p.2.correction_level.length = 1 ∧ p.2.collection_number.length = 1 ∧
      p.2.collection_category.length = 1)
    {y : String} {yo : YearOutput}
    (hyo : (y, yo) ∈ organize_satellite_data_json fs)
    {g : GroupValue} (hg : g ∈ yo.values) {b : String} (hb : b ∈ g.bands) :
    ∃ f ∈ fs, ∃ d, decode_satellite_filename f = some d ∧
      f = renderFilename d ∧ yearOf d = y ∧ keyOf d = keyOfG g ∧
      b = bandTokenOf d ∧
      rebuildPath dir (yo.correction_level.headD "")
        (yo.collection_number.headD "") (yo.collection_category.headD "")
        g b = pathJoin dir f := by
  obtain ⟨hs1, hs2, hs3⟩ := hsing (y, yo) hyo
  rw [organize_mem_iff_acc] at hyo
  obtain ⟨hkey, rfl⟩ := hyo
  obtain ⟨kv, hkv, rfl⟩ := finalizeYear_values_mem.mp hg
  obtain ⟨k, bs⟩ := kv
  have hb' : b ∈ bs := by
    have hbi : b ∈ List.insertionSort strLeR bs := hb
    rwa [List.mem_insertionSort] at hbi
  have hbv : bandsView (yearAcc fs y) k = bs := by
    unfold bandsView
    rw [(assocFind_eq_iff_mem yearAcc_keys_nodup).mpr hkv]
    rfl
  have hbm : b ∈ bandsView (yearAcc fs y) k := hbv ▸ hb'
  obtain ⟨f, hf, d, hdec, hy, hkd, hbt⟩ := yearAcc_bands_mem.mp hbm
  obtain ⟨d0, hwf0, hf0⟩ := hwf f hf
  have hd0 : d = d0 := by
    have := decode_unique hwf0 hf0 hdec
    exact this
  subst hd0
  have hcorrmem : d.correction_level ∈
      (finalizeYear (yearAcc fs y)).correction_level :=
    yearAcc_correction_mem.mpr ⟨f, hf, d, hdec, hy, rfl⟩
  have hcnmem : d.collection_number ∈
      (finalizeYear (yearAcc fs y)).collection_number :=
    yearAcc_colnum_mem.mpr ⟨f, hf, d, hdec, hy, rfl⟩
  have hccmem : d.collection_category ∈
      (finalizeYear (yearAcc fs y)).collection_category :=
    yearAcc_colcat_mem.mpr ⟨f, hf, d, hdec, hy, rfl⟩
  have hclv := singleton_headD hs1 hcorrmem
  have hcnv := singleton_headD hs2 hcnmem
  have hccv := singleton_headD hs3 hccmem
  subst hkd
  refine ⟨f, hf, d, hdec, hf0, hy, rfl, hbt, ?_⟩
  subst hbt
  rw [hf0]
  unfold rebuildPath
  rw [hclv, hcnv, hccv]
  show pathJoin dir (d.satellite ++ "_" ++ d.correction_level ++ "_" ++
    d.wrs ++ "_" ++ d.acquisition_date ++ "_" ++ d.processing_date ++
    "_" ++ d.collection_number ++ "_" ++ d.collection_category ++ "_" ++
    bandTokenOf d ++ "." ++ ORIGINAL_DATASET_IMAGE_EXTENSION) = _
  rw [rebuild_eq_render d rfl rfl rfl]

/-- Conversely, every decodable input filename is reproduced by the path
synthesis: its year entry, group and band token exist in the aggregate and
the rebuilt path is the directory-joined original filename. -/
theorem path_target {fs : List String} {dir : String}
    (hwf : ∀ f ∈ fs, ∃ d, wellFormed d = true ∧ f = renderFilename d)
    (hsing : ∀ p ∈ organize_satellite_data_json fs,
      p.2.correction_level.length = 1 ∧ p.2.collection_number.length = 1 ∧
      p.2.collection_category.length = 1)
    {f : String} (hf : f ∈ fs) :
    ∃ y yo, (y, yo) ∈ organize_satellite_data_json fs ∧
      ∃ g ∈ yo.values, ∃ b ∈ g.bands,
        rebuildPath dir (yo.correction_level.headD "")
          (yo.collection_number.headD "") (yo.collection_category.headD "")
          g b = pathJoin dir f := by
  obtain ⟨d, hwfd, rfl⟩ := hwf f hf
  have hdec : decode_satellite_filename (renderFilename d) = some d :=
    decode_render hwfd
  have hkey : yearOf d ∈ (jsonState fs).map Prod.fst :=
    jsonState_keys_mem.mpr ⟨_, hf, d, hdec, rfl⟩
  have hyo : (yearOf d, finalizeYear (yearAcc fs (yearOf d))) ∈
      organize_satellite_data_json fs :=
    organize_mem_iff_acc.mpr ⟨hkey, rfl⟩
  obtain ⟨hs1, hs2, hs3⟩ := hsing _ hyo
  have hkmem : keyOf d ∈ (yearAcc fs (yearOf d)).values.map Prod.fst :=
    yearAcc_keys_mem.mpr ⟨_, hf, d, hdec, rfl, rfl⟩
  obtain ⟨⟨k, bs⟩, hkv, hfst⟩ := List.mem_map.mp hkmem
  simp only at hfst
  have hfst' : keyOf d = k := hfst.symm
  have hg : mkGroup (k, bs) ∈
      (finalizeYear (yearAcc fs (yearOf d))).values :=
    finalizeYear_values_mem.mpr ⟨(k, bs), hkv, rfl⟩
  have hbv : bandsView (yearAcc fs (yearOf d)) k = bs := by
    unfold bandsView
    rw [(assocFind_eq_iff_mem yearAcc_keys_nodup).mpr hkv]
    rfl
  have hb : bandTokenOf d ∈ bs := by
    rw [← hbv]
    exact yearAcc_bands_mem.mpr ⟨_, hf, d, hdec, rfl, hfst', rfl⟩
  have hbg : bandTokenOf d ∈ (mkGroup (k, bs)).bands := by
    show bandTokenOf d ∈ List.insertionSort strLeR bs
    rw [List.mem_insertionSort]
    exact hb
  refine ⟨yearOf d, _, hyo, mkGroup (k, bs), hg, bandTokenOf d, hbg, ?_⟩
  have hcorrmem : d.correction_level ∈
      (finalizeYear (yearAcc fs (yearOf d))).correction_level :=
    yearAcc_correction_mem.mpr ⟨_, hf, d, hdec, rfl, rfl⟩
  have hcnmem : d.collection_number ∈
      (finalizeYear (yearAcc fs (yearOf d))).collection_number :=
    yearAcc_colnum_mem.mpr ⟨_, hf, d, hdec, rfl, rfl⟩
  have hccmem : d.collection_category ∈
      (finalizeYear (yearAcc fs (yearOf d))).collection_category :=
    yearAcc_colcat_mem.mpr ⟨_, hf, d, hdec, rfl, rfl⟩
  rw [singleton_headD hs1 hcorrmem, singleton_headD hs2 hcnmem,
    singleton_headD hs3 hccmem]
  subst hfst
  unfold rebuildPath
  show pathJoin dir (d.satellite ++ "_" ++ d.correction_level ++ "_" ++
    d.wrs ++ "_" ++ d.acquisition_date ++ "_" ++ d.processing_date ++
    "_" ++ d.collection_number ++ "_" ++ d.collection_category ++ "_" ++
    bandTokenOf d ++ "." ++ ORIGINAL_DATASET_IMAGE_EXTENSION) = _
  rw [rebuild_eq_render d rfl rfl rfl]

/-- Every path emitted for a group comes from a decoded input file of that
year and group key. -/
theorem group_elem_source {fs : List String} {dir : String}
    (hwf : ∀ f ∈ fs, ∃ d, wellFormed d = true ∧ f = renderFilename d)
    (hsing : ∀ p ∈ organize_satellite_data_json fs,
      p.2.correction_level.length = 1 ∧ p.2.collection_number.length = 1 ∧
      p.2.collection_category.length = 1)
    {y : String} {yo : YearOutput}
    (hyo : (y, yo) ∈ organize_satellite_data_json fs)
    {g : GroupValue} (hg : g ∈ yo.values) {x : String}
    (hx : x ∈ groupPaths dir (yo.correction_level.headD "")
      (yo.collection_number.headD "") (yo.collection_category.headD "") g) :
    ∃ f ∈ fs, ∃ d, decode_satellite_filename f = some d ∧
      f = renderFilename d ∧ yearOf d = y ∧ keyOf d = keyOfG g ∧
      x = pathJoin dir f := by
  rw [groupPaths_eq_map, List.mem_map] at hx
  obtain ⟨b, hb, rfl⟩ := hx
  obtain ⟨f, hf, d, hdec, hrend, hyd, hkd, _, heq⟩ :=
    band_source hwf hsing hyo hg hb
  exact ⟨f, hf, d, hdec, hrend, hyd, hkd, heq.symm ▸ heq ▸ rfl⟩

/-- C4 (amended): on a duplicate-free batch in which every filename is an
exact grammar match, if the aggregate gives each year exactly one
correction level, collection number and collection category, then path
synthesis succeeds and returns exactly the original filenames joined with
the directory (as a permutation). -/
theorem C4_roundtrip :
    ∀ (fs : List String) (dir : String),
      fs.Nodup →
      (∀ f ∈ fs, ∃ d, wellFormed d = true ∧ f = renderFilename d) →
      (∀ p ∈ organize_satellite_data_json fs,
        p.2.correction_level.length = 1 ∧
        p.2.collection_number.length = 1 ∧
        p.2.collection_category.length = 1) →
      ∃ ps, create_satellite_images_paths (organize_satellite_data_json fs)
          dir = some ps ∧ ps.Perm (fs.map (pathJoin dir)) := by
  intro fs dir hnd hwf hsing
  have hne : ∀ p ∈ organize_satellite_data_json fs,
      p.2.correction_level ≠ [] ∧ p.2.collection_number ≠ [] ∧
      p.2.collection_category ≠ [] := by
    intro p hp
    obtain ⟨h1, h2, h3⟩ := hsing p hp
    refine ⟨?_, ?_, ?_⟩
    · intro hnil
      rw [hnil] at h1
      exact absurd h1 (by decide)
    · intro hnil
      rw [hnil] at h2
      exact absurd h2 (by decide)
    · intro hnil
      rw [hnil] at h3
      exact absurd h3 (by decide)
  have hout := create_foldl_explicit dir hne []
  rw [List.nil_append] at hout
  refine ⟨_, hout, ?_⟩
  have hmemiff : ∀ x,
      x ∈ (organize_satellite_data_json fs).flatMap (fun p =>
        p.2.values.flatMap
          (groupPaths dir (p.2.correction_level.headD "")
            (p.2.collection_number.headD "")
            (p.2.collection_category.headD ""))) ↔
      x ∈ fs.map (pathJoin dir) := by
    intro x
    constructor
    · intro hx
      rw [List.mem_flatMap] at hx
      obtain ⟨p, hp, hx⟩ := hx
      rw [List.mem_flatMap] at hx
      obtain ⟨g, hgmem, hx⟩ := hx
      obtain ⟨y, yo⟩ := p
      obtain ⟨f, hffs, d, _, _, _, _, hxp⟩ :=
        group_elem_source hwf hsing hp hgmem hx
      rw [hxp]
      exact List.mem_map_of_mem _ hffs
    · intro hx
      rw [List.mem_map] at hx
      obtain ⟨f, hffs, rfl⟩ := hx
      obtain ⟨y, yo, hyo, g, hg, b, hb, heq⟩ := path_target hwf hsing hffs
      rw [List.mem_flatMap]
      refine ⟨(y, yo), hyo, ?_⟩
      rw [List.mem_flatMap]
      refine ⟨g, hg, ?_⟩
      rw [groupPaths_eq_map, List.mem_map]
      exact ⟨b, hb, heq⟩
  have hndR : (fs.map (pathJoin dir)).Nodup :=
    hnd.map fun _ _ h => pathJoin_inj h
  have hkeysPair : (organize_satellite_data_json fs).Pairwise
      (fun p q => p.1 ≠ q.1) :=
    List.pairwise_map.mp organize_keys_nodup
  have hndPS : ((organize_satellite_data_json fs).flatMap (fun p =>
      p.2.values.flatMap
        (groupPaths dir (p.2.correction_level.headD "")
          (p.2.collection_number.headD "")
          (p.2.collection_category.headD "")))).Nodup := by
    rw [List.nodup_flatMap]
    constructor
    · rintro ⟨y, yo⟩ hp
      rw [List.nodup_flatMap]
      constructor
      · intro g hg
        rw [groupPaths_eq_map]
        have hbnd : g.bands.Nodup := by
          have hp' := hp
          rw [organize_mem_iff_acc] at hp'
          obtain ⟨hkey, hyo⟩ := hp'
          subst hyo
          obtain ⟨⟨k, bs⟩, hkv, rfl⟩ := finalizeYear_values_mem.mp hg
          show (List.insertionSort strLeR bs).Nodup
          refine ((List.perm_insertionSort strLeR bs).nodup_iff).mpr ?_
          have hbv : bandsView (yearAcc fs y) k = bs := by
            unfold bandsView
            rw [(assocFind_eq_iff_mem yearAcc_keys_nodup).mpr hkv]
            rfl
          exact hbv ▸ yearAcc_bands_nodup k
        refine hbnd.map_on ?_
        intro b hb b' hb' heqpath
        obtain ⟨f, hf, d, hdec, _, _, _, hbt, heqp⟩ :=
          band_source hwf hsing hp hg hb
        obtain ⟨f', hf', d', hdec', _, _, _, hbt', heqp'⟩ :=
          band_source hwf hsing hp hg hb'
        have hff : f = f' := pathJoin_inj (by rw [← heqp, ← heqp', heqpath])
        subst hff
        rw [hdec] at hdec'
        injection hdec' with hdd
        subst hdd
        rw [hbt, hbt']
      · have hkeysNodup : (yo.values.map keyOfG).Nodup := by
          have hp' := hp
          rw [organize_mem_iff_acc] at hp'
          obtain ⟨_, hyo⟩ := hp'
          subst hyo
          exact (finalize_keys_perm).nodup_iff.mpr yearAcc_keys_nodup
        have hpair : yo.values.Pairwise
            (fun g g' => keyOfG g ≠ keyOfG g') :=
          List.pairwise_map.mp hkeysNodup
        refine hpair.imp_of_mem ?_
        intro g g' hgm hgm' hnekey
        intro x hx1 hx2
        obtain ⟨f, hf, d, hdec, _, _, hkd, hxp⟩ :=
          group_elem_source hwf hsing hp hgm hx1
        obtain ⟨f', hf', d', hdec', _, _, hkd', hxp'⟩ :=
          group_elem_source hwf hsing hp hgm' hx2
        have hff : f = f' := pathJoin_inj (hxp.symm.trans hxp')
        subst hff
        rw [hdec] at hdec'
        injection hdec' with hdd
        subst hdd
        exact hnekey (hkd ▸ hkd' ▸ rfl)
    · refine hkeysPair.imp_of_mem ?_
      rintro ⟨y, yo⟩ ⟨y', yo'⟩ hp hq hney
      intro x hx1 hx2
      rw [List.mem_flatMap] at hx1 hx2
      obtain ⟨g, hg, hx1⟩ := hx1
      obtain ⟨g', hg', hx2⟩ := hx2
      obtain ⟨f, hf, d, hdec, _, hyd, _, hxp⟩ :=
        group_elem_source hwf hsing hp hg hx1
      obtain ⟨f', hf', d', hdec', _, hyd', _, hxp'⟩ :=
        group_elem_source hwf hsing hq hg' hx2
      have hff : f = f' := pathJoin_inj (hxp.symm.trans hxp')
      subst hff
      rw [hdec] at hdec'
      injection hdec' with hdd
      subst hdd
      exact hney (hyd ▸ hyd' ▸ rfl)
  exact (List.perm_ext_iff_of_nodup hndPS hndR).mpr hmemiff

/-- C4 (counterexample): the claim quantifies over every filename set whose
aggregate has unique year-level metadata, but an undecodable filename
(here `junk.TIF`) is skipped by the aggregator while still being part of
the input set, so synthesis does not reproduce it: the hypothesis of the
claim holds for this set, yet the joined `junk.TIF` path is absent from
the output. -/
theorem C4_counterexample :
    (∀ p ∈ organize_satellite_data_json
        ["LC08_L2SP_123045_20200115_20200120_02_T1_SR_B4.TIF", "junk.TIF"],
      p.2.correction_level.length = 1 ∧ p.2.collection_number.length = 1 ∧
      p.2.collection_category.length = 1) ∧
    create_satellite_images_paths (organize_satellite_data_json
        ["LC08_L2SP_123045_20200115_20200120_02_T1_SR_B4.TIF",
         "junk.TIF"]) "dir" =
      some ["dir/LC08_L2SP_123045_20200115_20200120_02_T1_SR_B4.TIF"] ∧
    pathJoin "dir" "junk.TIF" ∉
      ["dir/LC08_L2SP_123045_20200115_20200120_02_T1_SR_B4.TIF"] := by
  refine ⟨?_, by decide, by decide⟩
  decide

/-- Witness for `C4_roundtrip` at a concrete batch. -/
theorem C4_roundtrip_witness :
    ∃ ps, create_satellite_images_paths (organize_satellite_data_json
        ["LC08_L2SP_123045_20200115_20200120_02_T1_SR_B4.TIF"]) "dir" =
      some ps ∧ ps.Perm
        (["LC08_L2SP_123045_20200115_20200120_02_T1_SR_B4.TIF"].map
          (pathJoin "dir")) :=
  C4_roundtrip _ "dir" (by decide)
    (fun f hf => by
      rw [List.mem_singleton] at hf
      subst hf
      exact ⟨⟨"LC08", "L2SP", "123045", "20200115", "20200120", "02", "T1",
        "SR", "B4"⟩, by decide, by decide⟩)
    (by decide)
